import Mathlib

/-!
Verification of the chunked procedural terrain streaming engine of the
`three-test` repository.

The development shallowly embeds the terrain core (`src/terrain.ts`,
`src/terrain-chunk.ts`, `src/app/terrain/terrain-chunk-utilities.ts`,
`src/app/terrain/grass/grass-utilities.ts`, `src/noise.ts`) in Lean.
JavaScript numbers are idealised as rationals (`ℚ`), so floating-point
rounding is not modelled; all other control flow is translated directly.

External black boxes are abstracted as function parameters:
* `perlin` — the three.js `ImprovedNoise.noise(x, y, z)` primitive
  (spec §4.1 treats it as an opaque coherent-noise dependency);
* `pw` — JavaScript exponentiation `c ** elevationExponent` with the
  configured non-integer exponent 1.6;
* `rng` — the stream of successive `Math.random()` results;
* `sinFn` — `Math.sin`, used only inside the grass placement hash;
* `normalsOf` — the vertex-normal array produced by three.js
  `computeVertexNormals` for the chunk at a given chunk coordinate.
-/

namespace ThreeTest

/-! ## Configured constants (fields of the `Terrain` class) -/

def chunkSize : ℕ := 8

def heightScale : ℚ := 36

def lacunarity : ℚ := 2

def seed : ℚ := 42

def hillNoiseScale : ℚ := 0.008

def detailNoiseScale : ℚ := 0.06

def hillOctaves : ℕ := 5

def detailOctaves : ℕ := 5

def hillPersistence : ℚ := 0.65

def detailPersistence : ℚ := 0.5

def hillAmplitude : ℚ := 2

def detailAmplitude : ℚ := 0.9

def flatThreshold : ℚ := 0.35

def flatBlend : ℚ := 0.12

def cellSize : ℚ := 4096 / (200 - 1)

def chunkRadius : ℕ := 3

def waterLevel : ℚ := 16

/-- `cw = this.chunkSize + 1`: samples per chunk row. -/
def cw : ℕ := chunkSize + 1

/-- `cd = this.chunkSize + 1`: samples per chunk column. -/
def cd : ℕ := chunkSize + 1

/-! ## NoiseGenerator (`src/noise.ts`) -/

/-- The options record passed to `NoiseGenerator.sampleOctaves`. -/
structure MultiOctaveOptions where
  octaves : ℕ
  scale : ℚ
  persistence : ℚ
  lacunarity : ℚ
  offsetZ : ℚ
deriving Repr, DecidableEq

/-- The abstract `ImprovedNoise.noise(x, y, z)` primitive. -/
abbrev Perlin := ℚ → ℚ → ℚ → ℚ

/-- `NoiseGenerator.sampleOctaves`: accumulate `perlin(x*freq, y*freq, offsetZ) * amp`
over `octaves` iterations, with `amp *= persistence`, `freq *= lacunarity`. -/
def sampleOctaves (perlin : Perlin) (x y : ℚ) (o : MultiOctaveOptions) : ℚ :=
  let r := (List.range o.octaves).foldl
    (fun (s : ℚ × ℚ × ℚ) _ =>
      let amp := s.1
      let freq := s.2.1
      let value := s.2.2
      (amp * o.persistence, freq * o.lacunarity,
        value + perlin (x * freq) (y * freq) o.offsetZ * amp))
    (1, o.scale, 0)
  r.2.2

/-- Octave options of the hill band in `generateHeight`. -/
def hillOptions : MultiOctaveOptions :=
  { lacunarity := lacunarity, octaves := hillOctaves, offsetZ := seed,
    persistence := hillPersistence, scale := hillNoiseScale }

/-- Octave options of the detail band in `generateHeight` (decorrelated at seed + 512). -/
def detailOptions : MultiOctaveOptions :=
  { lacunarity := lacunarity, octaves := detailOctaves, offsetZ := seed + 512,
    persistence := detailPersistence, scale := detailNoiseScale }

/-! ## Height-field generation (`Terrain.generateHeight`) -/

/-- The global noise calibration record (`this.noiseRanges`). Its values come
from `computeNoiseRanges`, which samples the abstract noise primitive; they are
treated as an opaque input to height generation, exactly as the factory version
`createChunkEntry` receives them through `ChunkFactoryParameters`. -/
structure NoiseRanges where
  hillMin : ℚ
  hillMax : ℚ
  detailMin : ℚ
  detailMax : ℚ
deriving Repr, DecidableEq

/-- `nr.hillMax - nr.hillMin || 1`: JavaScript `||` replaces a zero range by 1. -/
def hillRange (nr : NoiseRanges) : ℚ :=
  if nr.hillMax - nr.hillMin = 0 then 1 else nr.hillMax - nr.hillMin

/-- `nr.detailMax - nr.detailMin || 1`. -/
def detailRange (nr : NoiseRanges) : ℚ :=
  if nr.detailMax - nr.detailMin = 0 then 1 else nr.detailMax - nr.detailMin

/-- `Terrain.smoothStep(value, edgeLo, edgeHi)`, including the `|| 1`
guard on the edge difference. -/
def smoothStep (value edgeLo edgeHi : ℚ) : ℚ :=
  let d := edgeHi - edgeLo
  let tval := max 0 (min 1 ((value - edgeLo) / (if d = 0 then 1 else d)))
  tval * tval * (3 - 2 * tval)

/-- The loop body of `Terrain.generateHeight` for the cell at world grid
coordinate `(x, y)`: hill band, flat mask, conditional detail band, amplitude
combination, clamp, and the `** elevationExponent` power (`pw`). -/
def cellValue (perlin : Perlin) (pw : ℚ → ℚ) (nr : NoiseRanges) (x y : ℚ) : ℚ :=
  let hRaw := sampleOctaves perlin x y hillOptions
  let hillNorm := (hRaw - nr.hillMin) / hillRange nr
  let mask := smoothStep hillNorm (flatThreshold - flatBlend) (flatThreshold + flatBlend)
  let detailNorm :=
    if 0 < mask then
      (sampleOctaves perlin x y detailOptions - nr.detailMin) / detailRange nr
    else 0
  let combined := hillNorm * hillAmplitude + detailNorm * detailAmplitude * mask
  pw (max 0 combined)

/-- `Terrain.generateHeight(width, depth, offsetX, offsetZ)`: the row-major
array `out` with `out[dz*width + dx]` holding the cell value at world grid
coordinate `(offsetX + dx, offsetZ + dz)`. -/
def generateHeight (perlin : Perlin) (pw : ℚ → ℚ) (nr : NoiseRanges)
    (width depth : ℕ) (offsetX offsetZ : ℤ) : List ℚ :=
  (List.range (width * depth)).map fun i =>
    cellValue perlin pw nr (offsetX + (i % width : ℕ)) (offsetZ + (i / width : ℕ))

/-- The validation loop in `Terrain.createChunk`: non-finite entries become 0
(vacuous over `ℚ`, where every value is finite) and negative entries become 0. -/
def validateHeights (hs : List ℚ) : List ℚ :=
  hs.map fun v => if v < 0 then 0 else v

/-- The height data a freshly created chunk at chunk coordinate `(cx, cz)`
carries: `generateHeight(cw, cd, cx*chunkSize, cz*chunkSize)` after validation. -/
def chunkHeightData (perlin : Perlin) (pw : ℚ → ℚ) (nr : NoiseRanges)
    (cx cz : ℤ) : List ℚ :=
  validateHeights (generateHeight perlin pw nr cw cd (cx * chunkSize) (cz * chunkSize))

/-! ## Chunks and the chunk store (`src/terrain-chunk.ts`, `Terrain.chunks`) -/

/-- One vertex normal (three components of the flat `normal` attribute array). -/
structure V3 where
  x : ℚ
  y : ℚ
  z : ℚ
deriving Repr, DecidableEq

/-- A normal attribute array, indexed by vertex index. -/
abbrev NArr : Type := ℕ → V3

/-- The `TerrainChunk` record (`ChunkEntry` fields relevant to the terrain
core): offsets, grid dimensions, the height field, and the mesh's vertex
normal array. -/
structure TerrainChunk where
  offsetX : ℤ
  offsetZ : ℤ
  width : ℕ
  depth : ℕ
  heightData : List ℚ
  normals : NArr

/-- The chunk store `this.chunks : Map<string, TerrainChunk>`, modelled as an
insertion-ordered association list. The string key `"cx,cz"` produced by
`Terrain.makeKey` is in bijection with the integer pair `(cx, cz)`, so keys
are modelled as the pairs themselves. -/
abbrev Store : Type := List ((ℤ × ℤ) × TerrainChunk)

/-- `Map.get`: first entry with the given key. -/
def storeGet : Store → ℤ × ℤ → Option TerrainChunk
  | [], _ => none
  | e :: s, k => if e.1 = k then some e.2 else storeGet s k

/-- `Map.set` on a key already present: replace the value in place. -/
def storeSet : Store → ℤ × ℤ → TerrainChunk → Store
  | [], _, _ => []
  | e :: s, k, c => if e.1 = k then (e.1, c) :: storeSet s k c else e :: storeSet s k c

/-- `Map.set` on an absent key: append in insertion order. -/
def storeAdd (s : Store) (k : ℤ × ℤ) (c : TerrainChunk) : Store :=
  s ++ [(k, c)]

/-- `Map.keys`, in insertion order. -/
def storeKeys (s : Store) : List (ℤ × ℤ) :=
  s.map Prod.fst

/-- `Map.has`. -/
def storeHas (s : Store) (k : ℤ × ℤ) : Prop :=
  (storeGet s k).isSome

instance (s : Store) (k : ℤ × ℤ) : Decidable (storeHas s k) := by
  unfold storeHas; infer_instance

/-- `TerrainChunk.sampleCellHeight(ix, iz)`: clamp-free guarded lookup of one
height sample in chunk-local coordinates; out-of-chunk cells give 0
(`heightData[index] || 0` also maps a missing entry to 0). -/
def TerrainChunk.sampleCellHeight (c : TerrainChunk) (ix iz : ℤ) : ℚ :=
  let lx := ix - c.offsetX
  let lz := iz - c.offsetZ
  if lx < 0 ∨ lz < 0 ∨ (c.width : ℤ) ≤ lx ∨ (c.depth : ℤ) ≤ lz then 0
  else c.heightData.getD (lx + lz * c.width).toNat 0

/-- `Terrain.sampleCellHeight(ix, iz)`: resolve the owning chunk by
`floor(i / chunkSize)` per axis; a missing chunk yields 0. -/
def sampleCellHeightT (σ : Store) (ix iz : ℤ) : ℚ :=
  let cx : ℤ := ⌊(ix : ℚ) / chunkSize⌋
  let cz : ℤ := ⌊(iz : ℚ) / chunkSize⌋
  match storeGet σ (cx, cz) with
  | none => 0
  | some c => c.sampleCellHeight ix iz

/-- `Terrain.getHeightAt(x, z)`: bilinear interpolation of the four
surrounding cell samples, each resolved through `sampleCellHeight` and scaled
by `heightScale`. -/
def getHeightAt (σ : Store) (x z : ℚ) : ℚ :=
  let fx := x / cellSize
  let fz := z / cellSize
  let ix : ℤ := ⌊fx⌋
  let iz : ℤ := ⌊fz⌋
  let tx := fx - ix
  let tz := fz - iz
  let h11 := sampleCellHeightT σ ix iz * heightScale
  let h21 := sampleCellHeightT σ (ix + 1) iz * heightScale
  let h12 := sampleCellHeightT σ ix (iz + 1) * heightScale
  let h22 := sampleCellHeightT σ (ix + 1) (iz + 1) * heightScale
  let h1 := h11 * (1 - tx) + h21 * tx
  let h2 := h12 * (1 - tx) + h22 * tx
  h1 * (1 - tz) + h2 * tz

/-- `makeSampleFromHeightData` (`src/app/terrain/terrain-chunk-utilities.ts`):
the per-chunk height sampler; returns 0 when any of the four surrounding
samples falls outside the chunk grid. -/
def makeSampleFromHeightData (heightData : List ℚ) (cwA cdA : ℕ)
    (offsetX offsetZ : ℤ) (cellSizeA heightScaleA : ℚ) (x z : ℚ) : ℚ :=
  let fx := x / cellSizeA
  let fz := z / cellSizeA
  let ix : ℤ := ⌊fx⌋
  let iz : ℤ := ⌊fz⌋
  let tx := fx - ix
  let tz := fz - iz
  let lx := ix - offsetX
  let lz := iz - offsetZ
  if lx < 0 ∨ lz < 0 ∨ (cwA : ℤ) ≤ lx + 1 ∨ (cdA : ℤ) ≤ lz + 1 then 0
  else
    let index11 := (lx + lz * cwA).toNat
    let index21 := (lx + 1 + lz * cwA).toNat
    let index12 := (lx + (lz + 1) * cwA).toNat
    let index22 := (lx + 1 + (lz + 1) * cwA).toNat
    let h11 := heightData.getD index11 0
    let h21 := heightData.getD index21 0
    let h12 := heightData.getD index12 0
    let h22 := heightData.getD index22 0
    let h1 := h11 * (1 - tx) + h21 * tx
    let h2 := h12 * (1 - tx) + h22 * tx
    (h1 * (1 - tz) + h2 * tz) * heightScaleA

/-! ## Border stitching (`Terrain.smoothChunkBorders`) -/

/-- `(a + b) * 0.5` componentwise: the in-place normal average. -/
def midV (a b : V3) : V3 :=
  ⟨(a.x + b.x) / 2, (a.y + b.y) / 2, (a.z + b.z) / 2⟩

/-- Pointwise update of a normal array. -/
def updN (f : NArr) (i : ℕ) (v : V3) : NArr :=
  fun j => if j = i then v else f j

/-- One iteration of a boundary-stitching loop: average the entries at
`ias t` of the first array and `ibs t` of the second and write the midpoint
back to both (the body of the `+X` / `+Z` loops of `smoothChunkBorders`). -/
def stitchStep (ias ibs : ℕ → ℕ) (p : NArr × NArr) (t : ℕ) : NArr × NArr :=
  let ia := ias t
  let ib := ibs t
  let m := midV (p.1 ia) (p.2 ib)
  (updN p.1 ia m, updN p.2 ib m)

/-- A boundary-stitching loop over iterations `t = 0, …, count-1`, in
ascending order. -/
def stitchPair (ias ibs : ℕ → ℕ) : ℕ → NArr → NArr → NArr × NArr
  | 0, a, b => (a, b)
  | t + 1, a, b => stitchStep ias ibs (stitchPair ias ibs t a b) t

/-- Right-edge index of chunk A: `ia = cw - 1 + lz * cw`. -/
def iaX (lz : ℕ) : ℕ := cw - 1 + lz * cw

/-- Left-edge index of chunk B: `ib = 0 + lz * cw`. -/
def ibX (lz : ℕ) : ℕ := lz * cw

/-- Far-edge index of chunk A: `ia = lx + (cd - 1) * cw`. -/
def iaZ (lx : ℕ) : ℕ := lx + (cd - 1) * cw

/-- Near-edge index of chunk B: `ib = lx + 0 * cw`. -/
def ibZ (lx : ℕ) : ℕ := lx

/-- The `+X` half of the `smoothChunkBorders` body for the chunk at `k`:
average each matching right/left boundary normal pair with the chunk at
`(cx + 1, cz)`, in place on both chunks; skip when the neighbor is absent. -/
def stitchX (σ : Store) (k : ℤ × ℤ) : Store :=
  match storeGet σ k, storeGet σ (k.1 + 1, k.2) with
  | some A, some B =>
      let p := stitchPair iaX ibX cd A.normals B.normals
      storeSet (storeSet σ k { A with normals := p.1 }) (k.1 + 1, k.2)
        { B with normals := p.2 }
  | _, _ => σ

/-- The `+Z` half of the `smoothChunkBorders` body for the chunk at `k`. -/
def stitchZ (σ : Store) (k : ℤ × ℤ) : Store :=
  match storeGet σ k, storeGet σ (k.1, k.2 + 1) with
  | some A, some B =>
      let p := stitchPair iaZ ibZ cw A.normals B.normals
      storeSet (storeSet σ k { A with normals := p.1 }) (k.1, k.2 + 1)
        { B with normals := p.2 }
  | _, _ => σ

/-- The `smoothChunkBorders` body for one key: `+X` stitch then `+Z` stitch
(the `+Z` loop reads the normal array already mutated by the `+X` loop). -/
def processKey (σ : Store) (k : ℤ × ℤ) : Store :=
  match storeGet σ k with
  | none => σ
  | some _ => stitchZ (stitchX σ k) k

/-- `Terrain.smoothChunkBorders()`: iterate the stitching body over the live
keys of the store. -/
def smoothChunkBorders (σ : Store) : Store :=
  (storeKeys σ).foldl processKey σ

/-! ## Chunk lifecycle (`Terrain.createChunk`, `disposeChunk`, `updateChunks`) -/

/-- The chunk `createChunk(cx, cz)` builds: offsets `c*chunkSize`, a
`(chunkSize+1)²` validated height grid, and the normal array produced by
`computeVertexNormals` (abstracted as `normalsOf`). -/
def mkChunk (perlin : Perlin) (pw : ℚ → ℚ) (nr : NoiseRanges)
    (normalsOf : ℤ → ℤ → NArr) (cx cz : ℤ) : TerrainChunk :=
  { offsetX := cx * chunkSize
    offsetZ := cz * chunkSize
    width := cw
    depth := cd
    heightData := chunkHeightData perlin pw nr cx cz
    normals := normalsOf cx cz }

/-- `Math.floor((worldPos / cellSize) / chunkSize)`: world position to chunk
coordinate, one axis. -/
def chunkCoord (p : ℚ) : ℤ :=
  ⌊p / cellSize / chunkSize⌋

/-- The "wanted" key enumeration of `updateChunks`: for
`index < (2*chunkRadius+1)²`, the key
`(centerCX + index % side - chunkRadius, centerCZ + index / side - chunkRadius)`. -/
def wantedKeys (ccx ccz : ℤ) : List (ℤ × ℤ) :=
  let side := 2 * chunkRadius + 1
  (List.range (side * side)).map fun index =>
    (ccx + (index % side : ℕ) - chunkRadius, ccz + (index / side : ℕ) - chunkRadius)

/-- The per-key creation step of `updateChunks`:
`if (!this.chunks.has(key)) this.createChunk(cx, cz)`. -/
def createStep (perlin : Perlin) (pw : ℚ → ℚ) (nr : NoiseRanges)
    (normalsOf : ℤ → ℤ → NArr) (s : Store) (k : ℤ × ℤ) : Store :=
  if storeHas s k then s else storeAdd s k (mkChunk perlin pw nr normalsOf k.1 k.2)

/-- `Terrain.updateChunks(playerX, playerZ)`: create every wanted chunk that
is missing, dispose every live chunk that is not wanted, then run the border
stitching pass. -/
def updateChunks (perlin : Perlin) (pw : ℚ → ℚ) (nr : NoiseRanges)
    (normalsOf : ℤ → ℤ → NArr) (σ : Store) (playerX playerZ : ℚ) : Store :=
  let ccx := chunkCoord playerX
  let ccz := chunkCoord playerZ
  let wanted := wantedKeys ccx ccz
  let σ₁ := wanted.foldl (createStep perlin pw nr normalsOf) σ
  let σ₂ := σ₁.filter fun e => e.1 ∈ wanted
  smoothChunkBorders σ₂

/-! ## Spec-side height formula (for the refinement claims) -/

/-- Modelled from the spec: the clamped cubic Hermite smoothstep of `hillNorm`
between `flatThreshold − flatBlend` and `flatThreshold + flatBlend`
(`t²(3−2t)` with clamped `t`), written with plain division. -/
def specMask (hillNorm : ℚ) : ℚ :=
  let t := max 0 (min 1 ((hillNorm - (flatThreshold - flatBlend)) /
    ((flatThreshold + flatBlend) - (flatThreshold - flatBlend))))
  t * t * (3 - 2 * t)

/-- Modelled from the spec (§4.3 / claim C3): the per-cell elevation formula
with plain normalisation `(raw − min)/(max − min)`, detail sampled only when
the mask is positive, amplitude combination clamped to `≥ 0`, and the
elevation exponent applied (`pw`). -/
def specCellValue (perlin : Perlin) (pw : ℚ → ℚ) (nr : NoiseRanges) (x y : ℚ) : ℚ :=
  let hillNorm := (sampleOctaves perlin x y hillOptions - nr.hillMin) /
    (nr.hillMax - nr.hillMin)
  let mask := specMask hillNorm
  let detailNorm :=
    if 0 < mask then
      (sampleOctaves perlin x y detailOptions - nr.detailMin) /
        (nr.detailMax - nr.detailMin)
    else 0
  let combined := hillNorm * hillAmplitude + detailNorm * detailAmplitude * mask
  pw (max 0 combined)

lemma hillRange_of_ne {nr : NoiseRanges} (h : nr.hillMax ≠ nr.hillMin) :
    hillRange nr = nr.hillMax - nr.hillMin := by
  unfold hillRange
  rw [if_neg (sub_ne_zero_of_ne h)]

lemma detailRange_of_ne {nr : NoiseRanges} (h : nr.detailMax ≠ nr.detailMin) :
    detailRange nr = nr.detailMax - nr.detailMin := by
  unfold detailRange
  rw [if_neg (sub_ne_zero_of_ne h)]

lemma smoothStep_eq_specMask (v : ℚ) :
    smoothStep v (flatThreshold - flatBlend) (flatThreshold + flatBlend) = specMask v := by
  unfold smoothStep specMask
  norm_num [flatThreshold, flatBlend]

/-- With nondegenerate calibration ranges, the source loop body agrees with
the spec formula. -/
lemma cellValue_eq_spec (perlin : Perlin) (pw : ℚ → ℚ) (nr : NoiseRanges)
    (hH : nr.hillMax ≠ nr.hillMin) (hD : nr.detailMax ≠ nr.detailMin) (x y : ℚ) :
    cellValue perlin pw nr x y = specCellValue perlin pw nr x y := by
  unfold cellValue specCellValue
  simp only [hillRange_of_ne hH, detailRange_of_ne hD, smoothStep_eq_specMask]

/-- Row-major indexing of `generateHeight`. -/
lemma generateHeight_get (perlin : Perlin) (pw : ℚ → ℚ) (nr : NoiseRanges)
    (width depth dx dz : ℕ) (offsetX offsetZ : ℤ) (hdx : dx < width) (hdz : dz < depth) :
    (generateHeight perlin pw nr width depth offsetX offsetZ).get? (dz * width + dx) =
      some (cellValue perlin pw nr (offsetX + dx) (offsetZ + dz)) := by
  have hlt : dz * width + dx < width * depth := by
    calc dz * width + dx < dz * width + width := by omega
    _ = (dz + 1) * width := by ring
    _ ≤ depth * width := Nat.mul_le_mul_right width hdz
    _ = width * depth := Nat.mul_comm depth width
  unfold generateHeight
  rw [List.get?_map, List.get?_range hlt, Option.map_some']
  have hmod : (dz * width + dx) % width = dx := by
    rw [Nat.add_comm, Nat.add_mul_mod_self_right, Nat.mod_eq_of_lt hdx]
  have hdiv : (dz * width + dx) / width = dz := by
    rw [Nat.add_comm, Nat.add_mul_div_right dx dz (by omega), Nat.div_eq_of_lt hdx]
    omega
  rw [hmod, hdiv]

/-- C3: `generateHeight(width, depth, offsetX, offsetZ)` computes the cell at
world coordinate `(offsetX+dx, offsetZ+dz)` as `hillNorm` normalised by the
hill range, a clamped cubic Hermite smoothstep mask around `flatThreshold`,
a detail octave sum at decorrelated seed+512 taken only when the mask is
positive, the amplitude combination clamped to `≥ 0`, and the elevation
exponent applied — provided the calibrated ranges are nondegenerate. -/
theorem generateHeight_computes_spec_formula (perlin : Perlin) (pw : ℚ → ℚ)
    (nr : NoiseRanges) (hH : nr.hillMax ≠ nr.hillMin) (hD : nr.detailMax ≠ nr.detailMin)
    (width depth dx dz : ℕ) (offsetX offsetZ : ℤ) (hdx : dx < width) (hdz : dz < depth) :
    (generateHeight perlin pw nr width depth offsetX offsetZ).get? (dz * width + dx) =
      some (specCellValue perlin pw nr (offsetX + dx) (offsetZ + dz)) := by
  rw [generateHeight_get perlin pw nr width depth dx dz offsetX offsetZ hdx hdz,
    cellValue_eq_spec perlin pw nr hH hD]

/-- Witness for C3 at a concrete input. -/
theorem generateHeight_computes_spec_formula_witness :
    ((1 : ℚ) ≠ 0 ∧ (1 : ℚ) ≠ 0 ∧ (1 : ℕ) < 2 ∧ (1 : ℕ) < 2) ∧
      (generateHeight (fun _ _ _ => 0) id ⟨0, 1, 0, 1⟩ 2 2 0 0).get? (1 * 2 + 1) =
        some (specCellValue (fun _ _ _ => 0) id ⟨0, 1, 0, 1⟩ (0 + (1 : ℕ)) (0 + (1 : ℕ))) :=
  ⟨⟨one_ne_zero, one_ne_zero, Nat.one_lt_two, Nat.one_lt_two⟩,
    generateHeight_computes_spec_formula (fun _ _ _ => 0) id ⟨0, 1, 0, 1⟩
      (by norm_num) (by norm_num) 2 2 1 1 0 0 Nat.one_lt_two Nat.one_lt_two⟩

/-- C7: every validated height entry is nonnegative, and the hill/detail
normalisation denominators are never zero (a zero-width range is replaced by
the neutral denominator 1). -/
theorem chunk_heights_valid (perlin : Perlin) (pw : ℚ → ℚ) (nr : NoiseRanges)
    (cx cz : ℤ) :
    (∀ v ∈ chunkHeightData perlin pw nr cx cz, 0 ≤ v) ∧
      hillRange nr ≠ 0 ∧ detailRange nr ≠ 0 := by
  refine ⟨?_, ?_, ?_⟩
  · intro v hv
    unfold chunkHeightData validateHeights at hv
    obtain ⟨w, _, hw⟩ := List.mem_map.mp hv
    by_cases h : w < 0
    · simp only [if_pos h] at hw
      exact le_of_eq hw
    · simp only [if_neg h] at hw
      exact hw ▸ not_lt.mp h
  · unfold hillRange
    split
    · exact one_ne_zero
    · assumption
  · unfold detailRange
    split
    · exact one_ne_zero
    · assumption

/-- Indexing of a validated chunk height grid: entry `lz*cw + lx` holds the
clamped cell value at world grid coordinate
`(cx*chunkSize + lx, cz*chunkSize + lz)`. -/
lemma chunkHeightData_get (perlin : Perlin) (pw : ℚ → ℚ) (nr : NoiseRanges)
    (cx cz : ℤ) (lx lz : ℕ) (hlx : lx < cw) (hlz : lz < cd) :
    (chunkHeightData perlin pw nr cx cz).get? (lz * cw + lx) =
      some (max 0 (cellValue perlin pw nr (cx * chunkSize + lx) (cz * chunkSize + lz))) := by
  unfold chunkHeightData validateHeights
  rw [List.get?_map, generateHeight_get perlin pw nr cw cd lx lz _ _ hlx hlz,
    Option.map_some']
  congr 1
  push_cast
  rcases lt_or_le (cellValue perlin pw nr (cx * (chunkSize : ℚ) + lx) (cz * (chunkSize : ℚ) + lz)) 0
    with h | h
  · rw [if_pos h, max_eq_left h.le]
  · rw [if_neg (not_lt.mpr h), max_eq_right h]

/-- With constant-zero noise, identity power and unit ranges, each cell of the
height field evaluates to 0. -/
lemma cellValue_zero_noise (x y : ℚ) :
    cellValue (fun _ _ _ => 0) id ⟨0, 1, 0, 1⟩ x y = 0 := by
  have hso : ∀ o : MultiOctaveOptions, sampleOctaves (fun _ _ _ => 0) x y o = 0 := by
    intro o
    unfold sampleOctaves
    induction (List.range o.octaves) using List.reverseRecOn with
    | nil => simp
    | append_singleton l t ih => simp_all
  unfold cellValue
  rw [hso, hso]
  unfold hillRange detailRange smoothStep
  norm_num [flatThreshold, flatBlend, hillAmplitude]

/-- Witness for C7 at a concrete input. -/
theorem chunk_heights_valid_witness :
    (0 : ℚ) ∈ chunkHeightData (fun _ _ _ => 0) id ⟨0, 1, 0, 1⟩ 0 0 ∧ (0 : ℚ) ≤ 0 := by
  have hmem : (0 : ℚ) ∈ chunkHeightData (fun _ _ _ => 0) id ⟨0, 1, 0, 1⟩ 0 0 := by
    have h := chunkHeightData_get (fun _ _ _ => 0) id ⟨0, 1, 0, 1⟩ 0 0 0 0
      (by norm_num [cw, chunkSize]) (by norm_num [cd, chunkSize])
    rw [cellValue_zero_noise, max_self] at h
    exact List.get?_mem h
  exact ⟨hmem, (chunk_heights_valid (fun _ _ _ => 0) id ⟨0, 1, 0, 1⟩ 0 0).1 0 hmem⟩

/-! ## Missing chunks (C6) -/

/-- C6: a height-field query whose owning chunk is absent from the store
returns 0, and the border-stitching body skips a missing `+X` or `+Z`
neighbor, leaving the store untouched; all paths are total, so no error is
raised or propagated. -/
theorem missing_chunk_harmless :
    (∀ (σ : Store) (ix iz : ℤ),
        storeGet σ (⌊(ix : ℚ) / chunkSize⌋, ⌊(iz : ℚ) / chunkSize⌋) = none →
          sampleCellHeightT σ ix iz = 0) ∧
      (∀ (σ : Store) (k : ℤ × ℤ), storeGet σ (k.1 + 1, k.2) = none → stitchX σ k = σ) ∧
      (∀ (σ : Store) (k : ℤ × ℤ), storeGet σ (k.1, k.2 + 1) = none → stitchZ σ k = σ) := by
  refine ⟨?_, ?_, ?_⟩
  · intro σ ix iz h
    simp only [sampleCellHeightT, h]
  · intro σ k h
    unfold stitchX
    rw [h]
    rcases storeGet σ k with _ | A <;> rfl
  · intro σ k h
    unfold stitchZ
    rw [h]
    rcases storeGet σ k with _ | A <;> rfl

/-- Witness for C6 at a concrete input. -/
theorem missing_chunk_harmless_witness :
    storeGet ([] : Store) (⌊((0 : ℤ) : ℚ) / chunkSize⌋, ⌊((0 : ℤ) : ℚ) / chunkSize⌋) = none ∧
      sampleCellHeightT [] 0 0 = 0 :=
  ⟨rfl, missing_chunk_harmless.1 [] 0 0 rfl⟩

/-! ## The per-chunk height sampler footprint (C8) -/

/-- The guard of `makeSampleFromHeightData`, negated: the queried coordinate
and all four surrounding samples lie inside the chunk's covered footprint. -/
def insideFootprint (cwA cdA : ℕ) (offsetX offsetZ : ℤ) (cellSizeA x z : ℚ) : Prop :=
  let lx := ⌊x / cellSizeA⌋ - offsetX
  let lz := ⌊z / cellSizeA⌋ - offsetZ
  0 ≤ lx ∧ 0 ≤ lz ∧ lx + 1 < cwA ∧ lz + 1 < cdA

/-- Modelled from the spec: "bilinear interpolation over the four nearest
grid cells, scaled by heightScale", with no footprint guard. -/
def specSamplerBilinear (heightData : List ℚ) (cwA : ℕ) (offsetX offsetZ : ℤ)
    (cellSizeA heightScaleA x z : ℚ) : ℚ :=
  let fx := x / cellSizeA
  let fz := z / cellSizeA
  let ix : ℤ := ⌊fx⌋
  let iz : ℤ := ⌊fz⌋
  let tx := fx - ix
  let tz := fz - iz
  let lx := ix - offsetX
  let lz := iz - offsetZ
  let h11 := heightData.getD (lx + lz * cwA).toNat 0
  let h21 := heightData.getD (lx + 1 + lz * cwA).toNat 0
  let h12 := heightData.getD (lx + (lz + 1) * cwA).toNat 0
  let h22 := heightData.getD (lx + 1 + (lz + 1) * cwA).toNat 0
  ((h11 * (1 - tx) + h21 * tx) * (1 - tz) + (h12 * (1 - tx) + h22 * tx) * tz) * heightScaleA

/-- C8 (amended): the per-chunk height sampler returns the bilinear
interpolation of the four nearest grid samples scaled by `heightScale` inside
the chunk's covered footprint, and 0 outside it. (The converse direction of
the original claim — that 0 is returned *only* outside — is refuted by
`makeSample_zero_inside_footprint`.) -/
theorem makeSample_footprint (heightData : List ℚ) (cwA cdA : ℕ)
    (offsetX offsetZ : ℤ) (cellSizeA heightScaleA x z : ℚ) :
    (insideFootprint cwA cdA offsetX offsetZ cellSizeA x z →
        makeSampleFromHeightData heightData cwA cdA offsetX offsetZ cellSizeA heightScaleA x z =
          specSamplerBilinear heightData cwA offsetX offsetZ cellSizeA heightScaleA x z) ∧
      (¬ insideFootprint cwA cdA offsetX offsetZ cellSizeA x z →
        makeSampleFromHeightData heightData cwA cdA offsetX offsetZ cellSizeA heightScaleA x z = 0) := by
  unfold insideFootprint makeSampleFromHeightData specSamplerBilinear
  constructor
  · intro h
    rw [if_neg]
    push_neg
    refine ⟨by omega, by omega, by omega, by omega⟩
  · intro h
    rw [if_pos]
    by_contra hc
    push_neg at hc
    exact h ⟨by omega, by omega, by omega, by omega⟩

/-- Witness for C8 (amended) at a concrete inside coordinate. -/
theorem makeSample_footprint_witness :
    insideFootprint 9 9 0 0 cellSize (cellSize / 2) (cellSize / 2) ∧
      makeSampleFromHeightData [0, 1, 2, 3, 4, 5, 6, 7, 8] 9 9 0 0 cellSize 36
          (cellSize / 2) (cellSize / 2) =
        specSamplerBilinear [0, 1, 2, 3, 4, 5, 6, 7, 8] 9 0 0 cellSize 36
          (cellSize / 2) (cellSize / 2) := by
  have hin : insideFootprint 9 9 0 0 cellSize (cellSize / 2) (cellSize / 2) := by
    unfold insideFootprint cellSize
    norm_num
  exact ⟨hin,
    (makeSample_footprint [0, 1, 2, 3, 4, 5, 6, 7, 8] 9 9 0 0 cellSize 36
      (cellSize / 2) (cellSize / 2)).1 hin⟩

/-- Counterexample to C8 as stated: at a coordinate strictly inside the
chunk's covered footprint, the sampler can still return 0 (here over the
height field of a fully flat chunk), so returning 0 does not happen *only*
for outside coordinates. -/
theorem makeSample_zero_inside_footprint :
    insideFootprint 9 9 0 0 cellSize (cellSize / 2) (cellSize / 2) ∧
      makeSampleFromHeightData (List.replicate 81 0) 9 9 0 0 cellSize 36
        (cellSize / 2) (cellSize / 2) = 0 := by
  constructor
  · unfold insideFootprint cellSize
    norm_num
  · unfold makeSampleFromHeightData
    have h12 : cellSize / 2 / cellSize = 1 / 2 := by unfold cellSize; norm_num
    rw [if_neg]
    · simp only [h12]
      norm_num [List.getD, Int.fract]
    · simp only [h12]
      norm_num

/-! ## Seam height consistency (C4) -/

/-- The deterministic world elevation sample: the validated generator output
at world grid cell `(ix, iz)` — independent of which chunk computes it. -/
def worldCell (perlin : Perlin) (pw : ℚ → ℚ) (nr : NoiseRanges) (ix iz : ℤ) : ℚ :=
  max 0 (cellValue perlin pw nr ix iz)

/-- A chunk carrying exactly the data `createChunk(cx, cz)` builds (its normal
array is unconstrained). -/
def GeneratedAt (perlin : Perlin) (pw : ℚ → ℚ) (nr : NoiseRanges)
    (c : TerrainChunk) (cx cz : ℤ) : Prop :=
  c.offsetX = cx * chunkSize ∧ c.offsetZ = cz * chunkSize ∧
    c.width = cw ∧ c.depth = cd ∧ c.heightData = chunkHeightData perlin pw nr cx cz

/-- Modelled from the spec: "the bilinear interpolation that each of the two
chunks would compute locally from its own height field" — the guard-free
bilinear formula over the chunk's own height data (cf.
`makeSampleFromHeightData`, whose footprint guard excludes the far edge). -/
def chunkLocalBilinear (c : TerrainChunk) (x z : ℚ) : ℚ :=
  specSamplerBilinear c.heightData c.width c.offsetX c.offsetZ cellSize heightScale x z

/-- A generated chunk's height entry at flat index `n` is the world cell
sample at `(ix, iz)`, when `n` is the row-major local index of that cell. -/
lemma generated_getD (perlin : Perlin) (pw : ℚ → ℚ) (nr : NoiseRanges)
    {c : TerrainChunk} {cx cz : ℤ} (hG : GeneratedAt perlin pw nr c cx cz)
    (ix iz : ℤ) (hx1 : cx * 8 ≤ ix) (hx2 : ix < cx * 8 + 9)
    (hz1 : cz * 8 ≤ iz) (hz2 : iz < cz * 8 + 9)
    (n : ℕ) (hn : (n : ℤ) = ix - cx * 8 + (iz - cz * 8) * 9) :
    c.heightData.getD n 0 = worldCell perlin pw nr ix iz := by
  obtain ⟨-, -, -, -, hHD⟩ := hG
  rw [hHD]
  have h := chunkHeightData_get perlin pw nr cx cz (ix - cx * 8).toNat (iz - cz * 8).toNat
    (by unfold cw chunkSize; omega) (by unfold cd chunkSize; omega)
  have hidx : n = (iz - cz * 8).toNat * cw + (ix - cx * 8).toNat := by
    unfold cw chunkSize
    omega
  rw [hidx]
  simp only [List.getD]
  rw [h, Option.getD_some]
  unfold worldCell
  have e1 : ((ix - cx * 8).toNat : ℤ) = ix - cx * 8 := Int.toNat_of_nonneg (by omega)
  have e2 : ((iz - cz * 8).toNat : ℤ) = iz - cz * 8 := Int.toNat_of_nonneg (by omega)
  have e1' : (((ix - cx * 8).toNat : ℕ) : ℚ) = (ix : ℚ) - cx * 8 := by exact_mod_cast e1
  have e2' : (((iz - cz * 8).toNat : ℕ) : ℚ) = (iz : ℚ) - cz * 8 := by exact_mod_cast e2
  congr 2 <;>
    · unfold chunkSize
      push_cast [e1', e2']
      ring

lemma cellSize_ne_zero : cellSize ≠ 0 := by
  unfold cellSize; norm_num

/-- `⌊i / chunkSize⌋ = c` whenever `i` lies in chunk `c`'s cell range. -/
lemma floor_div_chunkSize {i c : ℤ} (h1 : c * 8 ≤ i) (h2 : i < c * 8 + 8) :
    ⌊(i : ℚ) / (chunkSize : ℕ)⌋ = c := by
  rw [Int.floor_eq_iff]
  unfold chunkSize
  push_cast
  constructor
  · rw [le_div_iff (by norm_num)]
    have : (c : ℚ) * 8 ≤ i := by exact_mod_cast h1
    linarith
  · rw [div_lt_iff (by norm_num)]
    have : (i : ℚ) < c * 8 + 8 := by exact_mod_cast h2
    linarith

/-- Evaluation of the store-level `sampleCellHeight` inside a generated,
loaded chunk. -/
lemma sampleCellHeightT_eval (σ : Store) (perlin : Perlin) (pw : ℚ → ℚ)
    (nr : NoiseRanges) {cx cz : ℤ} {c : TerrainChunk}
    (hc : storeGet σ (cx, cz) = some c) (hG : GeneratedAt perlin pw nr c cx cz)
    (ix iz : ℤ) (hix1 : cx * 8 ≤ ix) (hix2 : ix < cx * 8 + 8)
    (hiz1 : cz * 8 ≤ iz) (hiz2 : iz < cz * 8 + 8) :
    sampleCellHeightT σ ix iz = worldCell perlin pw nr ix iz := by
  have hG' := hG
  obtain ⟨hOX, hOZ, hW, hD, -⟩ := hG'
  simp only [sampleCellHeightT, floor_div_chunkSize hix1 hix2,
    floor_div_chunkSize hiz1 hiz2, hc]
  simp only [TerrainChunk.sampleCellHeight, hOX, hOZ, hW, hD]
  rw [if_neg (by unfold cw cd chunkSize; push_cast; omega)]
  exact generated_getD perlin pw nr hG ix iz (by omega) (by omega) (by omega) (by omega)
    _ (by unfold cw chunkSize; omega)

lemma chunkLocalBilinear_boundary (perlin : Perlin) (pw : ℚ → ℚ) (nr : NoiseRanges)
    {c : TerrainChunk} {cx q : ℤ} (hG : GeneratedAt perlin pw nr c cx q) (m : ℤ)
    (z : ℚ) (hm1 : cx * 8 ≤ 8 * m) (hm2 : 8 * m ≤ cx * 8 + 8)
    (hz1 : q * 8 ≤ ⌊z / cellSize⌋) (hz2 : ⌊z / cellSize⌋ + 1 ≤ q * 8 + 8) :
    chunkLocalBilinear c (((8 * m : ℤ) : ℚ) * cellSize) z =
      (worldCell perlin pw nr (8 * m) ⌊z / cellSize⌋ *
          (1 - (z / cellSize - ⌊z / cellSize⌋)) +
        worldCell perlin pw nr (8 * m) (⌊z / cellSize⌋ + 1) *
          (z / cellSize - ⌊z / cellSize⌋)) * heightScale := by
  have hG' := hG
  obtain ⟨hOX, hOZ, hW, -, -⟩ := hG'
  have hfx : (((8 * m : ℤ) : ℚ) * cellSize) / cellSize = ((8 * m : ℤ) : ℚ) :=
    mul_div_cancel_right₀ _ cellSize_ne_zero
  simp only [chunkLocalBilinear, specSamplerBilinear, hfx, Int.floor_intCast, hOX, hOZ, hW]
  set L := ⌊z / cellSize⌋ with hL
  push_cast
  simp only [sub_self, mul_zero, add_zero]
  rw [generated_getD perlin pw nr hG (8 * m) L (by omega) (by omega) (by omega) (by omega)
      ((8 * m - cx * (chunkSize : ℕ) + (L - q * (chunkSize : ℕ)) * (cw : ℕ)).toNat)
      (by simp only [cw, chunkSize]; omega),
    generated_getD perlin pw nr hG (8 * m) (L + 1) (by omega) (by omega) (by omega) (by omega)
      ((8 * m - cx * (chunkSize : ℕ) + (L - q * (chunkSize : ℕ) + 1) * (cw : ℕ)).toNat)
      (by simp only [cw, chunkSize]; omega)]
  ring

/-- The mirror of `chunkLocalBilinear_boundary` for a horizontal boundary
`z = 8q·cellSize`: only the near row matters (the far-row weight is 0 at the
exact boundary). -/
lemma chunkLocalBilinear_boundaryZ (perlin : Perlin) (pw : ℚ → ℚ) (nr : NoiseRanges)
    {c : TerrainChunk} {cx cz : ℤ} (hG : GeneratedAt perlin pw nr c cx cz) (q : ℤ)
    (x : ℚ) (hq1 : cz * 8 ≤ 8 * q) (hq2 : 8 * q ≤ cz * 8 + 8)
    (hx1 : cx * 8 ≤ ⌊x / cellSize⌋) (hx2 : ⌊x / cellSize⌋ + 1 ≤ cx * 8 + 8) :
    chunkLocalBilinear c x (((8 * q : ℤ) : ℚ) * cellSize) =
      (worldCell perlin pw nr ⌊x / cellSize⌋ (8 * q) *
          (1 - (x / cellSize - ⌊x / cellSize⌋)) +
        worldCell perlin pw nr (⌊x / cellSize⌋ + 1) (8 * q) *
          (x / cellSize - ⌊x / cellSize⌋)) * heightScale := by
  have hG' := hG
  obtain ⟨hOX, hOZ, hW, -, -⟩ := hG'
  have hfz : (((8 * q : ℤ) : ℚ) * cellSize) / cellSize = ((8 * q : ℤ) : ℚ) :=
    mul_div_cancel_right₀ _ cellSize_ne_zero
  simp only [chunkLocalBilinear, specSamplerBilinear, hfz, Int.floor_intCast, hOX, hOZ, hW]
  set L := ⌊x / cellSize⌋ with hL
  push_cast
  simp only [sub_self, mul_zero, add_zero]
  rw [generated_getD perlin pw nr hG L (8 * q) (by omega) (by omega) (by omega) (by omega)
      ((L - cx * (chunkSize : ℕ) + (8 * q - cz * (chunkSize : ℕ)) * (cw : ℕ)).toNat)
      (by simp only [cw, chunkSize]; omega),
    generated_getD perlin pw nr hG (L + 1) (8 * q) (by omega) (by omega) (by omega) (by omega)
      ((L - cx * (chunkSize : ℕ) + 1 + (8 * q - cz * (chunkSize : ℕ)) * (cw : ℕ)).toNat)
      (by simp only [cw, chunkSize]; omega)]
  ring

/-- `getHeightAt` at a vertical chunk boundary `x = 8m·cellSize`, away from
the last cell of the edge: the `z`-interpolation of the two shared-column
world samples, both obtained through the store from the owning chunk
`(m, q)`. -/
lemma getHeightAt_boundary (σ : Store) (perlin : Perlin) (pw : ℚ → ℚ)
    (nr : NoiseRanges) {m q : ℤ} {cB : TerrainChunk}
    (hB : storeGet σ (m, q) = some cB) (hGB : GeneratedAt perlin pw nr cB m q)
    (z : ℚ) (hz1 : q * 8 ≤ ⌊z / cellSize⌋) (hz2 : ⌊z / cellSize⌋ + 1 ≤ q * 8 + 7) :
    getHeightAt σ (((8 * m : ℤ) : ℚ) * cellSize) z =
      (worldCell perlin pw nr (8 * m) ⌊z / cellSize⌋ *
          (1 - (z / cellSize - ⌊z / cellSize⌋)) +
        worldCell perlin pw nr (8 * m) (⌊z / cellSize⌋ + 1) *
          (z / cellSize - ⌊z / cellSize⌋)) * heightScale := by
  have hfx : (((8 * m : ℤ) : ℚ) * cellSize) / cellSize = ((8 * m : ℤ) : ℚ) :=
    mul_div_cancel_right₀ _ cellSize_ne_zero
  simp only [getHeightAt, hfx, Int.floor_intCast]
  rw [sampleCellHeightT_eval σ perlin pw nr hB hGB (8 * m) ⌊z / cellSize⌋
      (by omega) (by omega) (by omega) (by omega),
    sampleCellHeightT_eval σ perlin pw nr hB hGB (8 * m) (⌊z / cellSize⌋ + 1)
      (by omega) (by omega) (by omega) (by omega)]
  push_cast
  ring

/-- `getHeightAt` at a vertical chunk boundary `x = 8m·cellSize` in the last
cell of the edge (`⌊z/cellSize⌋ = q·8+7`): the far sample row `q·8+8` is
routed to the next chunk row `(m, q+1)`, which must therefore be loaded. -/
lemma getHeightAt_boundary_lastX (σ : Store) (perlin : Perlin) (pw : ℚ → ℚ)
    (nr : NoiseRanges) {m q : ℤ} {cB cN : TerrainChunk}
    (hB : storeGet σ (m, q) = some cB) (hGB : GeneratedAt perlin pw nr cB m q)
    (hN : storeGet σ (m, q + 1) = some cN)
    (hGN : GeneratedAt perlin pw nr cN m (q + 1))
    (z : ℚ) (hz : ⌊z / cellSize⌋ = q * 8 + 7) :
    getHeightAt σ (((8 * m : ℤ) : ℚ) * cellSize) z =
      (worldCell perlin pw nr (8 * m) ⌊z / cellSize⌋ *
          (1 - (z / cellSize - ⌊z / cellSize⌋)) +
        worldCell perlin pw nr (8 * m) (⌊z / cellSize⌋ + 1) *
          (z / cellSize - ⌊z / cellSize⌋)) * heightScale := by
  have hfx : (((8 * m : ℤ) : ℚ) * cellSize) / cellSize = ((8 * m : ℤ) : ℚ) :=
    mul_div_cancel_right₀ _ cellSize_ne_zero
  simp only [getHeightAt, hfx, Int.floor_intCast]
  rw [sampleCellHeightT_eval σ perlin pw nr hB hGB (8 * m) ⌊z / cellSize⌋
      (by omega) (by omega) (by omega) (by omega),
    sampleCellHeightT_eval σ perlin pw nr hN hGN (8 * m) (⌊z / cellSize⌋ + 1)
      (by omega) (by omega) (by omega) (by omega)]
  push_cast
  ring

/-- `getHeightAt` at a horizontal chunk boundary `z = 8q·cellSize`, away from
the last cell of the edge: the `x`-interpolation of the two shared-row world
samples, both obtained through the store from the owning chunk `(m, q)`. -/
lemma getHeightAt_boundaryZ (σ : Store) (perlin : Perlin) (pw : ℚ → ℚ)
    (nr : NoiseRanges) {m q : ℤ} {cB : TerrainChunk}
    (hB : storeGet σ (m, q) = some cB) (hGB : GeneratedAt perlin pw nr cB m q)
    (x : ℚ) (hx1 : m * 8 ≤ ⌊x / cellSize⌋) (hx2 : ⌊x / cellSize⌋ + 1 ≤ m * 8 + 7) :
    getHeightAt σ x (((8 * q : ℤ) : ℚ) * cellSize) =
      (worldCell perlin pw nr ⌊x / cellSize⌋ (8 * q) *
          (1 - (x / cellSize - ⌊x / cellSize⌋)) +
        worldCell perlin pw nr (⌊x / cellSize⌋ + 1) (8 * q) *
          (x / cellSize - ⌊x / cellSize⌋)) * heightScale := by
  have hfz : (((8 * q : ℤ) : ℚ) * cellSize) / cellSize = ((8 * q : ℤ) : ℚ) :=
    mul_div_cancel_right₀ _ cellSize_ne_zero
  simp only [getHeightAt, hfz, Int.floor_intCast]
  rw [sampleCellHeightT_eval σ perlin pw nr hB hGB ⌊x / cellSize⌋ (8 * q)
      (by omega) (by omega) (by omega) (by omega),
    sampleCellHeightT_eval σ perlin pw nr hB hGB (⌊x / cellSize⌋ + 1) (8 * q)
      (by omega) (by omega) (by omega) (by omega)]
  push_cast
  ring

/-- `getHeightAt` at a horizontal chunk boundary `z = 8q·cellSize` in the
last cell of the edge (`⌊x/cellSize⌋ = m·8+7`): the far sample column
`m·8+8` is routed to the next chunk column `(m+1, q)`, which must therefore
be loaded. -/
lemma getHeightAt_boundaryZ_last (σ : Store) (perlin : Perlin) (pw : ℚ → ℚ)
    (nr : NoiseRanges) {m q : ℤ} {cB cN : TerrainChunk}
    (hB : storeGet σ (m, q) = some cB) (hGB : GeneratedAt perlin pw nr cB m q)
    (hN : storeGet σ (m + 1, q) = some cN)
    (hGN : GeneratedAt perlin pw nr cN (m + 1) q)
    (x : ℚ) (hx : ⌊x / cellSize⌋ = m * 8 + 7) :
    getHeightAt σ x (((8 * q : ℤ) : ℚ) * cellSize) =
      (worldCell perlin pw nr ⌊x / cellSize⌋ (8 * q) *
          (1 - (x / cellSize - ⌊x / cellSize⌋)) +
        worldCell perlin pw nr (⌊x / cellSize⌋ + 1) (8 * q) *
          (x / cellSize - ⌊x / cellSize⌋)) * heightScale := by
  have hfz : (((8 * q : ℤ) : ℚ) * cellSize) / cellSize = ((8 * q : ℤ) : ℚ) :=
    mul_div_cancel_right₀ _ cellSize_ne_zero
  simp only [getHeightAt, hfz, Int.floor_intCast]
  rw [sampleCellHeightT_eval σ perlin pw nr hB hGB ⌊x / cellSize⌋ (8 * q)
      (by omega) (by omega) (by omega) (by omega),
    sampleCellHeightT_eval σ perlin pw nr hN hGN (⌊x / cellSize⌋ + 1) (8 * q)
      (by omega) (by omega) (by omega) (by omega)]
  push_cast
  ring

/-- C4 (amended): at a world coordinate lying exactly on the shared boundary
between two loaded generated chunks — a vertical boundary `x = 8m·cellSize`
between `(m−1, q)` and `(m, q)`, or a horizontal boundary `z = 8q·cellSize`
between `(m, q−1)` and `(m, q)` — `getHeightAt` returns exactly (the `ℚ`
model has no rounding) the bilinear interpolation each of the two chunks
computes locally from its own height field, in every cell of the shared edge
except possibly the last; in the last cell (whose surrounding samples
straddle the next chunk row / column) the agreement additionally needs that
next chunk to be loaded, and without it the original claim fails
(`getHeightAt_frontier_cell_mismatch`). -/
theorem getHeightAt_boundary_consistent (σ : Store) (perlin : Perlin) (pw : ℚ → ℚ)
    (nr : NoiseRanges) (m q : ℤ) (cB : TerrainChunk)
    (hB : storeGet σ (m, q) = some cB) (hGB : GeneratedAt perlin pw nr cB m q) :
    (∀ cA, storeGet σ (m - 1, q) = some cA → GeneratedAt perlin pw nr cA (m - 1) q →
      ∀ z : ℚ, q * 8 ≤ ⌊z / cellSize⌋ →
        (⌊z / cellSize⌋ + 1 ≤ q * 8 + 7 →
          getHeightAt σ (((8 * m : ℤ) : ℚ) * cellSize) z =
              chunkLocalBilinear cA (((8 * m : ℤ) : ℚ) * cellSize) z ∧
            getHeightAt σ (((8 * m : ℤ) : ℚ) * cellSize) z =
              chunkLocalBilinear cB (((8 * m : ℤ) : ℚ) * cellSize) z) ∧
        (⌊z / cellSize⌋ + 1 = q * 8 + 8 →
          ∀ cN, storeGet σ (m, q + 1) = some cN →
            GeneratedAt perlin pw nr cN m (q + 1) →
            getHeightAt σ (((8 * m : ℤ) : ℚ) * cellSize) z =
                chunkLocalBilinear cA (((8 * m : ℤ) : ℚ) * cellSize) z ∧
              getHeightAt σ (((8 * m : ℤ) : ℚ) * cellSize) z =
                chunkLocalBilinear cB (((8 * m : ℤ) : ℚ) * cellSize) z)) ∧
    (∀ cA, storeGet σ (m, q - 1) = some cA → GeneratedAt perlin pw nr cA m (q - 1) →
      ∀ x : ℚ, m * 8 ≤ ⌊x / cellSize⌋ →
        (⌊x / cellSize⌋ + 1 ≤ m * 8 + 7 →
          getHeightAt σ x (((8 * q : ℤ) : ℚ) * cellSize) =
              chunkLocalBilinear cA x (((8 * q : ℤ) : ℚ) * cellSize) ∧
            getHeightAt σ x (((8 * q : ℤ) : ℚ) * cellSize) =
              chunkLocalBilinear cB x (((8 * q : ℤ) : ℚ) * cellSize)) ∧
        (⌊x / cellSize⌋ + 1 = m * 8 + 8 →
          ∀ cN, storeGet σ (m + 1, q) = some cN →
            GeneratedAt perlin pw nr cN (m + 1) q →
            getHeightAt σ x (((8 * q : ℤ) : ℚ) * cellSize) =
                chunkLocalBilinear cA x (((8 * q : ℤ) : ℚ) * cellSize) ∧
              getHeightAt σ x (((8 * q : ℤ) : ℚ) * cellSize) =
                chunkLocalBilinear cB x (((8 * q : ℤ) : ℚ) * cellSize))) := by
  constructor
  · intro cA hA hGA z hz1
    constructor
    · intro hz2
      constructor
      · rw [getHeightAt_boundary σ perlin pw nr hB hGB z hz1 hz2,
          chunkLocalBilinear_boundary perlin pw nr hGA m z (by omega) (by omega) hz1
            (by omega)]
      · rw [getHeightAt_boundary σ perlin pw nr hB hGB z hz1 hz2,
          chunkLocalBilinear_boundary perlin pw nr hGB m z (by omega) (by omega) hz1
            (by omega)]
    · intro hzl cN hN hGN
      constructor
      · rw [getHeightAt_boundary_lastX σ perlin pw nr hB hGB hN hGN z (by omega),
          chunkLocalBilinear_boundary perlin pw nr hGA m z (by omega) (by omega) hz1
            (by omega)]
      · rw [getHeightAt_boundary_lastX σ perlin pw nr hB hGB hN hGN z (by omega),
          chunkLocalBilinear_boundary perlin pw nr hGB m z (by omega) (by omega) hz1
            (by omega)]
  · intro cA hA hGA x hx1
    constructor
    · intro hx2
      constructor
      · rw [getHeightAt_boundaryZ σ perlin pw nr hB hGB x hx1 hx2,
          chunkLocalBilinear_boundaryZ perlin pw nr hGA q x (by omega) (by omega) hx1
            (by omega)]
      · rw [getHeightAt_boundaryZ σ perlin pw nr hB hGB x hx1 hx2,
          chunkLocalBilinear_boundaryZ perlin pw nr hGB q x (by omega) (by omega) hx1
            (by omega)]
    · intro hxl cN hN hGN
      constructor
      · rw [getHeightAt_boundaryZ_last σ perlin pw nr hB hGB hN hGN x (by omega),
          chunkLocalBilinear_boundaryZ perlin pw nr hGA q x (by omega) (by omega) hx1
            (by omega)]
      · rw [getHeightAt_boundaryZ_last σ perlin pw nr hB hGB hN hGN x (by omega),
          chunkLocalBilinear_boundaryZ perlin pw nr hGB q x (by omega) (by omega) hx1
            (by omega)]

/-- Concrete demo material for witnesses: constant-zero noise, identity
power, unit calibration ranges, constant normal arrays. -/
def zeroPerlin : Perlin := fun _ _ _ => 0

def unitRanges : NoiseRanges := ⟨0, 1, 0, 1⟩

def zeroNormals : ℤ → ℤ → NArr := fun _ _ _ => ⟨0, 0, 0⟩

def demoChunk00 : TerrainChunk := mkChunk zeroPerlin id unitRanges zeroNormals 0 0

def demoChunk10 : TerrainChunk := mkChunk zeroPerlin id unitRanges zeroNormals 1 0

def demoChunk11 : TerrainChunk := mkChunk zeroPerlin id unitRanges zeroNormals 1 1

def demoStore2 : Store := [((0, 0), demoChunk00), ((1, 0), demoChunk10)]

def demoStore3 : Store :=
  [((0, 0), demoChunk00), ((1, 0), demoChunk10), ((1, 1), demoChunk11)]

/-- Witness for C4: both the interior-cell branch (`z = 3·cellSize`) and the
last-cell branch (`z = 7.5·cellSize`, next chunk row loaded) of the vertical
boundary `x = 8·cellSize`, on a concrete three-chunk store. -/
theorem getHeightAt_boundary_consistent_witness :
    (storeGet demoStore3 (1, 0) = some demoChunk10 ∧
        storeGet demoStore3 (1 - 1, 0) = some demoChunk00 ∧
        storeGet demoStore3 (1, 0 + 1) = some demoChunk11 ∧
        (0 : ℤ) * 8 ≤ ⌊cellSize * 3 / cellSize⌋ ∧
        ⌊cellSize * 3 / cellSize⌋ + 1 ≤ (0 : ℤ) * 8 + 7 ∧
        (0 : ℤ) * 8 ≤ ⌊cellSize * (15 / 2) / cellSize⌋ ∧
        ⌊cellSize * (15 / 2) / cellSize⌋ + 1 = (0 : ℤ) * 8 + 8) ∧
      (getHeightAt demoStore3 (((8 * 1 : ℤ) : ℚ) * cellSize) (cellSize * 3) =
          chunkLocalBilinear demoChunk00 (((8 * 1 : ℤ) : ℚ) * cellSize) (cellSize * 3) ∧
        getHeightAt demoStore3 (((8 * 1 : ℤ) : ℚ) * cellSize) (cellSize * 3) =
          chunkLocalBilinear demoChunk10 (((8 * 1 : ℤ) : ℚ) * cellSize) (cellSize * 3)) ∧
      (getHeightAt demoStore3 (((8 * 1 : ℤ) : ℚ) * cellSize) (cellSize * (15 / 2)) =
          chunkLocalBilinear demoChunk00 (((8 * 1 : ℤ) : ℚ) * cellSize)
            (cellSize * (15 / 2)) ∧
        getHeightAt demoStore3 (((8 * 1 : ℤ) : ℚ) * cellSize) (cellSize * (15 / 2)) =
          chunkLocalBilinear demoChunk10 (((8 * 1 : ℤ) : ℚ) * cellSize)
            (cellSize * (15 / 2))) := by
  have hzv : cellSize * 3 / cellSize = 3 := by
    unfold cellSize; norm_num
  have hzw : cellSize * (15 / 2) / cellSize = 15 / 2 := by
    unfold cellSize; norm_num
  have hz1 : (0 : ℤ) * 8 ≤ ⌊cellSize * 3 / cellSize⌋ := by
    rw [hzv]; norm_num
  have hz2 : ⌊cellSize * 3 / cellSize⌋ + 1 ≤ (0 : ℤ) * 8 + 7 := by
    rw [hzv]; norm_num
  have hw1 : (0 : ℤ) * 8 ≤ ⌊cellSize * (15 / 2) / cellSize⌋ := by
    rw [hzw]; norm_num
  have hw2 : ⌊cellSize * (15 / 2) / cellSize⌋ + 1 = (0 : ℤ) * 8 + 8 := by
    rw [hzw]; norm_num
  have h1 : storeGet demoStore3 (1 - 1, 0) = some demoChunk00 := rfl
  have h2 : storeGet demoStore3 (1, 0) = some demoChunk10 := rfl
  have h3 : storeGet demoStore3 (1, 0 + 1) = some demoChunk11 := rfl
  refine ⟨⟨h2, h1, h3, hz1, hz2, hw1, hw2⟩, ?_, ?_⟩
  · exact ((getHeightAt_boundary_consistent demoStore3 zeroPerlin id unitRanges 1 0
      demoChunk10 h2 ⟨rfl, rfl, rfl, rfl, rfl⟩).1 demoChunk00 h1
      ⟨rfl, rfl, rfl, rfl, rfl⟩ (cellSize * 3) hz1).1 hz2
  · exact ((getHeightAt_boundary_consistent demoStore3 zeroPerlin id unitRanges 1 0
      demoChunk10 h2 ⟨rfl, rfl, rfl, rfl, rfl⟩).1 demoChunk00 h1
      ⟨rfl, rfl, rfl, rfl, rfl⟩ (cellSize * (15 / 2)) hw1).2 hw2 demoChunk11 h3
      ⟨rfl, rfl, rfl, rfl, rfl⟩

/-- Calibration ranges under which constant-zero noise generates the constant
height 1: `hillNorm = 1/2`, mask saturates at 1, `combined = 1`. -/
def fullRanges : NoiseRanges := ⟨-1, 1, 0, 1⟩

lemma cellValue_const_one (x y : ℚ) :
    cellValue zeroPerlin id fullRanges x y = 1 := by
  have hso : ∀ o : MultiOctaveOptions, sampleOctaves zeroPerlin x y o = 0 := by
    intro o
    unfold sampleOctaves zeroPerlin
    induction (List.range o.octaves) using List.reverseRecOn with
    | nil => simp
    | append_singleton l t ih => simp_all
  unfold cellValue
  rw [hso, hso]
  unfold fullRanges hillRange detailRange smoothStep
  norm_num [flatThreshold, flatBlend, hillAmplitude, detailAmplitude]

lemma worldCell_const_one (ix iz : ℤ) :
    worldCell zeroPerlin id fullRanges ix iz = 1 := by
  unfold worldCell
  rw [cellValue_const_one]
  norm_num

/-- A two-chunk store at the streaming frontier: the chunk row `z`-index 1 is
not loaded, exactly as after an `updateChunks` call whose radius ends there. -/
def oneChunk00 : TerrainChunk := mkChunk zeroPerlin id fullRanges zeroNormals 0 0

def oneChunk10 : TerrainChunk := mkChunk zeroPerlin id fullRanges zeroNormals 1 0

def oneStore2 : Store := [((0, 0), oneChunk00), ((1, 0), oneChunk10)]

/-- C4 counterexample to the original claim: the chunks at `(0,0)` and
`(1,0)` are both loaded and generated (with constant height field 1), the
world coordinate `(8·cellSize, 7.5·cellSize)` lies exactly on their shared
vertical boundary, yet `getHeightAt` returns 18 while both chunks' local
bilinear interpolation gives 36: the two far corner samples at grid row 8 are
routed to the absent chunk `(1, 1)` and contribute 0 instead of the stored
height. -/
theorem getHeightAt_frontier_cell_mismatch :
    storeGet oneStore2 (0, 0) = some oneChunk00 ∧
      storeGet oneStore2 (1, 0) = some oneChunk10 ∧
      storeGet oneStore2 (1, 1) = none ∧
      getHeightAt oneStore2 (((8 * 1 : ℤ) : ℚ) * cellSize) (cellSize * (15 / 2)) ≠
        chunkLocalBilinear oneChunk00 (((8 * 1 : ℤ) : ℚ) * cellSize)
          (cellSize * (15 / 2)) ∧
      getHeightAt oneStore2 (((8 * 1 : ℤ) : ℚ) * cellSize) (cellSize * (15 / 2)) ≠
        chunkLocalBilinear oneChunk10 (((8 * 1 : ℤ) : ℚ) * cellSize)
          (cellSize * (15 / 2)) := by
  have h00 : storeGet oneStore2 (0, 0) = some oneChunk00 := rfl
  have h10 : storeGet oneStore2 (1, 0) = some oneChunk10 := rfl
  have hG00 : GeneratedAt zeroPerlin id fullRanges oneChunk00 0 0 :=
    ⟨rfl, rfl, rfl, rfl, rfl⟩
  have hG10 : GeneratedAt zeroPerlin id fullRanges oneChunk10 1 0 :=
    ⟨rfl, rfl, rfl, rfl, rfl⟩
  have hfz : cellSize * (15 / 2) / cellSize = 15 / 2 := by
    unfold cellSize; norm_num
  have hfloor : ⌊(15 / 2 : ℚ)⌋ = 7 := by norm_num
  have hfloorz : ⌊cellSize * (15 / 2) / cellSize⌋ = 7 := by
    rw [hfz]; exact hfloor
  have hnone : ∀ ix : ℤ, 1 * 8 ≤ ix → ix < 1 * 8 + 8 →
      sampleCellHeightT oneStore2 ix (7 + 1) = 0 := by
    intro ix hi1 hi2
    simp only [sampleCellHeightT, floor_div_chunkSize hi1 hi2,
      @floor_div_chunkSize (7 + 1) 1 (by norm_num) (by norm_num)]
    rfl
  have hget : getHeightAt oneStore2 (((8 * 1 : ℤ) : ℚ) * cellSize)
      (cellSize * (15 / 2)) = 18 := by
    have hfx : (((8 * 1 : ℤ) : ℚ) * cellSize) / cellSize = ((8 * 1 : ℤ) : ℚ) :=
      mul_div_cancel_right₀ _ cellSize_ne_zero
    simp only [getHeightAt, hfx, hfz, Int.floor_intCast, hfloor]
    rw [sampleCellHeightT_eval oneStore2 zeroPerlin id fullRanges h10 hG10 (8 * 1) 7
        (by norm_num) (by norm_num) (by norm_num) (by norm_num),
      sampleCellHeightT_eval oneStore2 zeroPerlin id fullRanges h10 hG10 (8 * 1 + 1) 7
        (by norm_num) (by norm_num) (by norm_num) (by norm_num),
      hnone (8 * 1) (by norm_num) (by norm_num),
      hnone (8 * 1 + 1) (by norm_num) (by norm_num),
      worldCell_const_one, worldCell_const_one]
    push_cast
    norm_num [heightScale]
  have hz1 : (0 : ℤ) * 8 ≤ ⌊cellSize * (15 / 2) / cellSize⌋ := by
    rw [hfloorz]; norm_num
  have hz2 : ⌊cellSize * (15 / 2) / cellSize⌋ + 1 ≤ (0 : ℤ) * 8 + 8 := by
    rw [hfloorz]; norm_num
  have hloc00 : chunkLocalBilinear oneChunk00 (((8 * 1 : ℤ) : ℚ) * cellSize)
      (cellSize * (15 / 2)) = 36 := by
    rw [chunkLocalBilinear_boundary zeroPerlin id fullRanges hG00 1 (cellSize * (15 / 2))
        (by norm_num) (by norm_num) hz1 hz2, worldCell_const_one, worldCell_const_one]
    unfold heightScale
    ring
  have hloc10 : chunkLocalBilinear oneChunk10 (((8 * 1 : ℤ) : ℚ) * cellSize)
      (cellSize * (15 / 2)) = 36 := by
    rw [chunkLocalBilinear_boundary zeroPerlin id fullRanges hG10 1 (cellSize * (15 / 2))
        (by norm_num) (by norm_num) hz1 hz2, worldCell_const_one, worldCell_const_one]
    unfold heightScale
    ring
  refine ⟨h00, h10, rfl, ?_, ?_⟩
  · rw [hget, hloc00]
    norm_num
  · rw [hget, hloc10]
    norm_num

/-! ## Height queries are independent of normal data (C9) -/

/-- Everything of a chunk except its normal array. -/
def dropNormals (c : TerrainChunk) : ℤ × ℤ × ℕ × ℕ × List ℚ :=
  (c.offsetX, c.offsetZ, c.width, c.depth, c.heightData)

/-- Two stores with the same chunks up to normal data. -/
def HeightsEq (σ₁ σ₂ : Store) : Prop :=
  ∀ k, (storeGet σ₁ k).map dropNormals = (storeGet σ₂ k).map dropNormals

lemma storeGet_storeSet (s : Store) (k : ℤ × ℤ) (c : TerrainChunk) (k' : ℤ × ℤ) :
    storeGet (storeSet s k c) k' =
      if k' = k then (storeGet s k).map (fun _ => c) else storeGet s k' := by
  induction s with
  | nil =>
    by_cases h : k' = k <;> simp [storeSet, storeGet, h]
  | cons e t ih =>
    by_cases he : e.1 = k
    · have hset : storeSet (e :: t) k c = (e.1, c) :: storeSet t k c := by
        simp [storeSet, he]
      by_cases h : k' = k
      · subst h
        simp [hset, storeGet, he, ih]
      · have he' : ¬ e.1 = k' := by
          intro hh
          rw [he] at hh
          exact h hh.symm
        simp [hset, storeGet, he', ih, h]
    · have hset : storeSet (e :: t) k c = e :: storeSet t k c := by
        simp [storeSet, he]
      by_cases h : k' = k
      · subst h
        simp [hset, storeGet, he, ih]
      · by_cases hek : e.1 = k' <;> simp [hset, storeGet, hek, ih, h]

lemma storeSet_dropEq {s : Store} {k : ℤ × ℤ} {c : TerrainChunk} (c' : TerrainChunk)
    (hc : storeGet s k = some c) (hdrop : dropNormals c' = dropNormals c) (k' : ℤ × ℤ) :
    (storeGet (storeSet s k c') k').map dropNormals = (storeGet s k').map dropNormals := by
  rw [storeGet_storeSet]
  by_cases h : k' = k
  · subst h
    rw [if_pos rfl, hc]
    simp [hdrop]
  · rw [if_neg h]

lemma stitchX_dropEq (σ : Store) (k k' : ℤ × ℤ) :
    (storeGet (stitchX σ k) k').map dropNormals = (storeGet σ k').map dropNormals := by
  unfold stitchX
  rcases hA : storeGet σ k with _ | A
  · rfl
  rcases hB : storeGet σ (k.1 + 1, k.2) with _ | B
  · rfl
  have hB' : storeGet (storeSet σ k { A with normals :=
      (stitchPair iaX ibX cd A.normals B.normals).1 }) (k.1 + 1, k.2) = some B := by
    rw [storeGet_storeSet]
    have hk : (k.1 + 1, k.2) ≠ k := by
      intro h
      have := congrArg Prod.fst h
      omega
    rw [if_neg hk, hB]
  rw [storeSet_dropEq { B with normals := (stitchPair iaX ibX cd A.normals B.normals).2 }
      hB' rfl,
    storeSet_dropEq { A with normals := (stitchPair iaX ibX cd A.normals B.normals).1 }
      hA rfl]

lemma stitchZ_dropEq (σ : Store) (k k' : ℤ × ℤ) :
    (storeGet (stitchZ σ k) k').map dropNormals = (storeGet σ k').map dropNormals := by
  unfold stitchZ
  rcases hA : storeGet σ k with _ | A
  · rfl
  rcases hB : storeGet σ (k.1, k.2 + 1) with _ | B
  · rfl
  have hB' : storeGet (storeSet σ k { A with normals :=
      (stitchPair iaZ ibZ cw A.normals B.normals).1 }) (k.1, k.2 + 1) = some B := by
    rw [storeGet_storeSet]
    have hk : (k.1, k.2 + 1) ≠ k := by
      intro h
      have := congrArg Prod.snd h
      omega
    rw [if_neg hk, hB]
  rw [storeSet_dropEq { B with normals := (stitchPair iaZ ibZ cw A.normals B.normals).2 }
      hB' rfl,
    storeSet_dropEq { A with normals := (stitchPair iaZ ibZ cw A.normals B.normals).1 }
      hA rfl]

lemma processKey_dropEq (σ : Store) (k k' : ℤ × ℤ) :
    (storeGet (processKey σ k) k').map dropNormals = (storeGet σ k').map dropNormals := by
  unfold processKey
  rcases hA : storeGet σ k with _ | A
  · rfl
  · rw [stitchZ_dropEq, stitchX_dropEq]

lemma foldl_processKey_dropEq (ks : List (ℤ × ℤ)) (σ : Store) (k' : ℤ × ℤ) :
    (storeGet (ks.foldl processKey σ) k').map dropNormals =
      (storeGet σ k').map dropNormals := by
  induction ks generalizing σ with
  | nil => rfl
  | cons k t ih => rw [List.foldl_cons, ih, processKey_dropEq]

/-- The stitching pass touches only normal data. -/
lemma smoothChunkBorders_dropEq (σ : Store) (k' : ℤ × ℤ) :
    (storeGet (smoothChunkBorders σ) k').map dropNormals =
      (storeGet σ k').map dropNormals :=
  foldl_processKey_dropEq (storeKeys σ) σ k'

lemma sampleCellHeightT_congr {σ₁ σ₂ : Store} (h : HeightsEq σ₁ σ₂) (ix iz : ℤ) :
    sampleCellHeightT σ₁ ix iz = sampleCellHeightT σ₂ ix iz := by
  unfold sampleCellHeightT
  have hk := h (⌊(ix : ℚ) / chunkSize⌋, ⌊(iz : ℚ) / chunkSize⌋)
  rcases h1 : storeGet σ₁ (⌊(ix : ℚ) / chunkSize⌋, ⌊(iz : ℚ) / chunkSize⌋) with _ | c₁ <;>
    rcases h2 : storeGet σ₂ (⌊(ix : ℚ) / chunkSize⌋, ⌊(iz : ℚ) / chunkSize⌋) with _ | c₂ <;>
    rw [h1, h2] at hk <;> simp only [Option.map_some', Option.map_none'] at hk <;>
    simp only [h1, h2]
  · exact absurd hk (by simp)
  · exact absurd hk (by simp)
  · unfold dropNormals at hk
    simp only [Option.some.injEq, Prod.mk.injEq] at hk
    obtain ⟨e1, e2, e3, e4, e5⟩ := hk
    unfold TerrainChunk.sampleCellHeight
    rw [e1, e2, e3, e4, e5]

/-- C9: `getHeightAt` reads only per-chunk height data — its result is
invariant under any change of normal data, in particular under the border
stitching pass, which is the only mutation `updateChunks` performs on
surviving chunks; hence two queries with no chunk-set change in between
return identical values. -/
theorem getHeightAt_deterministic :
    (∀ σ₁ σ₂ : Store, HeightsEq σ₁ σ₂ → ∀ x z : ℚ,
        getHeightAt σ₁ x z = getHeightAt σ₂ x z) ∧
      (∀ (σ : Store) (x z : ℚ),
        getHeightAt (smoothChunkBorders σ) x z = getHeightAt σ x z) := by
  have hcongr : ∀ σ₁ σ₂ : Store, HeightsEq σ₁ σ₂ → ∀ x z : ℚ,
      getHeightAt σ₁ x z = getHeightAt σ₂ x z := by
    intro σ₁ σ₂ h x z
    simp only [getHeightAt, sampleCellHeightT_congr h]
  refine ⟨hcongr, fun σ x z => hcongr _ _ (fun k => smoothChunkBorders_dropEq σ k) x z⟩

/-- The chunk of `demoStore2` at the origin, with its normal array replaced. -/
def demoChunk00Alt : TerrainChunk :=
  { demoChunk00 with normals := fun _ => ⟨1, 2, 3⟩ }

/-- Witness for C9 at a concrete input: two one-chunk stores differing only
in normal data give the same height query result. -/
theorem getHeightAt_deterministic_witness :
    HeightsEq [((0, 0), demoChunk00)] [((0, 0), demoChunk00Alt)] ∧
      getHeightAt [((0, 0), demoChunk00)] 5 7 =
        getHeightAt [((0, 0), demoChunk00Alt)] 5 7 := by
  have hEq : HeightsEq [((0, 0), demoChunk00)] [((0, 0), demoChunk00Alt)] := by
    intro k
    by_cases hk : ((0, 0) : ℤ × ℤ) = k <;>
      simp [storeGet, hk, dropNormals, demoChunk00Alt]
  exact ⟨hEq, getHeightAt_deterministic.1 _ _ hEq 5 7⟩

/-! ## The live chunk set after `updateChunks` (C1, C10) -/

lemma storeHas_iff_mem_keys (σ : Store) (k : ℤ × ℤ) :
    storeHas σ k ↔ k ∈ storeKeys σ := by
  induction σ with
  | nil => simp [storeHas, storeGet, storeKeys]
  | cons e t ih =>
    unfold storeHas storeGet
    simp only [storeKeys, List.map_cons, List.mem_cons]
    by_cases he : e.1 = k
    · rw [if_pos he]
      simp [he.symm]
    · rw [if_neg he]
      constructor
      · intro hh
        exact Or.inr (ih.mp hh)
      · rintro (hh | hh)
        · exact absurd hh.symm he
        · exact ih.mpr hh

lemma storeKeys_storeAdd (σ : Store) (k : ℤ × ℤ) (c : TerrainChunk) :
    storeKeys (storeAdd σ k c) = storeKeys σ ++ [k] := by
  simp [storeAdd, storeKeys]

lemma storeKeys_storeSet (σ : Store) (k : ℤ × ℤ) (c : TerrainChunk) :
    storeKeys (storeSet σ k c) = storeKeys σ := by
  induction σ with
  | nil => rfl
  | cons e t ih =>
    have ih' : List.map Prod.fst (storeSet t k c) = List.map Prod.fst t := ih
    unfold storeSet storeKeys
    by_cases he : e.1 = k
    · rw [if_pos he]
      simp only [List.map_cons, ih']
    · rw [if_neg he]
      simp only [List.map_cons, ih']

lemma storeKeys_stitchX (σ : Store) (k : ℤ × ℤ) :
    storeKeys (stitchX σ k) = storeKeys σ := by
  unfold stitchX
  rcases storeGet σ k with _ | A
  · rfl
  rcases storeGet σ (k.1 + 1, k.2) with _ | B
  · rfl
  rw [storeKeys_storeSet, storeKeys_storeSet]

lemma storeKeys_stitchZ (σ : Store) (k : ℤ × ℤ) :
    storeKeys (stitchZ σ k) = storeKeys σ := by
  unfold stitchZ
  rcases storeGet σ k with _ | A
  · rfl
  rcases storeGet σ (k.1, k.2 + 1) with _ | B
  · rfl
  rw [storeKeys_storeSet, storeKeys_storeSet]

lemma storeKeys_processKey (σ : Store) (k : ℤ × ℤ) :
    storeKeys (processKey σ k) = storeKeys σ := by
  unfold processKey
  rcases storeGet σ k with _ | A
  · rfl
  · rw [storeKeys_stitchZ, storeKeys_stitchX]

lemma storeKeys_foldl_processKey (ks : List (ℤ × ℤ)) (σ : Store) :
    storeKeys (ks.foldl processKey σ) = storeKeys σ := by
  induction ks generalizing σ with
  | nil => rfl
  | cons k t ih => rw [List.foldl_cons, ih, storeKeys_processKey]

/-- The stitching pass neither creates nor disposes chunks. -/
lemma storeKeys_smoothChunkBorders (σ : Store) :
    storeKeys (smoothChunkBorders σ) = storeKeys σ :=
  storeKeys_foldl_processKey (storeKeys σ) σ

/-- Membership in the wanted-key enumeration is exactly Chebyshev distance
at most `chunkRadius` from the center chunk coordinate, per axis. -/
lemma mem_wantedKeys (ccx ccz : ℤ) (k : ℤ × ℤ) :
    k ∈ wantedKeys ccx ccz ↔ |k.1 - ccx| ≤ chunkRadius ∧ |k.2 - ccz| ≤ chunkRadius := by
  simp only [wantedKeys, chunkRadius, List.mem_map, List.mem_range]
  constructor
  · rintro ⟨i, hi, rfl⟩
    constructor <;> simp only [abs_le] <;> omega
  · rintro ⟨h1, h2⟩
    rw [abs_le] at h1 h2
    refine ⟨(k.2 - ccz + 3).toNat * 7 + (k.1 - ccx + 3).toNat, by omega, ?_⟩
    rw [Prod.ext_iff]
    constructor <;> simp only <;> omega

lemma nodup_wantedKeys (ccx ccz : ℤ) : (wantedKeys ccx ccz).Nodup := by
  simp only [wantedKeys, chunkRadius]
  refine List.Nodup.map_on ?_ (List.nodup_range _)
  intro i hi j hj hij
  simp only [List.mem_range] at hi hj
  simp only [Prod.mk.injEq] at hij
  obtain ⟨ha, hb⟩ := hij
  omega

lemma length_wantedKeys (ccx ccz : ℤ) : (wantedKeys ccx ccz).length = 49 := by
  simp [wantedKeys, chunkRadius]

lemma createStep_present (perlin : Perlin) (pw : ℚ → ℚ) (nr : NoiseRanges)
    (normalsOf : ℤ → ℤ → NArr) {s : Store} {k : ℤ × ℤ} (h : storeHas s k) :
    createStep perlin pw nr normalsOf s k = s := by
  unfold createStep
  rw [if_pos h]

lemma createStep_absent (perlin : Perlin) (pw : ℚ → ℚ) (nr : NoiseRanges)
    (normalsOf : ℤ → ℤ → NArr) {s : Store} {k : ℤ × ℤ} (h : ¬ storeHas s k) :
    createStep perlin pw nr normalsOf s k =
      storeAdd s k (mkChunk perlin pw nr normalsOf k.1 k.2) := by
  unfold createStep
  rw [if_neg h]

lemma mem_keys_createFold (perlin : Perlin) (pw : ℚ → ℚ) (nr : NoiseRanges)
    (normalsOf : ℤ → ℤ → NArr) (w : List (ℤ × ℤ)) (σ : Store) (k : ℤ × ℤ) :
    k ∈ storeKeys (w.foldl (createStep perlin pw nr normalsOf) σ) ↔
      k ∈ storeKeys σ ∨ k ∈ w := by
  induction w generalizing σ with
  | nil => simp
  | cons k₀ t ih =>
    rw [List.foldl_cons]
    by_cases h : storeHas σ k₀
    · rw [createStep_present perlin pw nr normalsOf h, ih]
      rw [storeHas_iff_mem_keys] at h
      simp only [List.mem_cons]
      constructor
      · tauto
      · intro hk
        rcases hk with hk | hk | hk
        · tauto
        · subst hk
          tauto
        · tauto
    · rw [createStep_absent perlin pw nr normalsOf h, ih, storeKeys_storeAdd]
      simp only [List.mem_append, List.mem_singleton, List.mem_cons]
      tauto

lemma nodup_keys_createFold (perlin : Perlin) (pw : ℚ → ℚ) (nr : NoiseRanges)
    (normalsOf : ℤ → ℤ → NArr) (w : List (ℤ × ℤ)) (σ : Store)
    (h : (storeKeys σ).Nodup) :
    (storeKeys (w.foldl (createStep perlin pw nr normalsOf) σ)).Nodup := by
  induction w generalizing σ with
  | nil => exact h
  | cons k₀ t ih =>
    rw [List.foldl_cons]
    by_cases hk : storeHas σ k₀
    · rw [createStep_present perlin pw nr normalsOf hk]
      exact ih σ h
    · rw [createStep_absent perlin pw nr normalsOf hk]
      refine ih _ ?_
      rw [storeKeys_storeAdd, List.nodup_append]
      rw [storeHas_iff_mem_keys] at hk
      exact ⟨h, List.nodup_singleton _, by simpa using hk⟩

lemma createFold_of_all_present (perlin : Perlin) (pw : ℚ → ℚ) (nr : NoiseRanges)
    (normalsOf : ℤ → ℤ → NArr) (w : List (ℤ × ℤ)) (σ : Store)
    (h : ∀ k ∈ w, storeHas σ k) :
    w.foldl (createStep perlin pw nr normalsOf) σ = σ := by
  induction w with
  | nil => rfl
  | cons k₀ t ih =>
    rw [List.foldl_cons, createStep_present perlin pw nr normalsOf (h k₀ (by simp))]
    refine ih fun k hk => h k ?_
    simp [hk]

lemma storeKeys_filter (σ : Store) (p : ℤ × ℤ → Bool) :
    storeKeys (σ.filter fun e => p e.1) = (storeKeys σ).filter p := by
  induction σ with
  | nil => rfl
  | cons e t ih =>
    have ih' : List.map Prod.fst (List.filter (fun e => p e.1) t) =
        List.filter p (List.map Prod.fst t) := ih
    unfold storeKeys
    cases hp : p e.1 <;> simp [List.filter_cons, hp, ih']

lemma storeKeys_filter_mem (σ : Store) (w : List (ℤ × ℤ)) :
    storeKeys (σ.filter fun e => decide (e.1 ∈ w)) =
      (storeKeys σ).filter fun k => decide (k ∈ w) :=
  storeKeys_filter σ fun k => decide (k ∈ w)

/-- The central content of C1, shared with C10: after `updateChunks` the key
set is exactly the radius-3 Chebyshev ball around the player's chunk
coordinate, with no duplicate keys. -/
lemma updateChunks_keys_spec (perlin : Perlin) (pw : ℚ → ℚ) (nr : NoiseRanges)
    (normalsOf : ℤ → ℤ → NArr) (σ : Store) (hnd : (storeKeys σ).Nodup) (px pz : ℚ) :
    (∀ k, k ∈ storeKeys (updateChunks perlin pw nr normalsOf σ px pz) ↔
        k ∈ wantedKeys (chunkCoord px) (chunkCoord pz)) ∧
      (storeKeys (updateChunks perlin pw nr normalsOf σ px pz)).Nodup := by
  simp only [updateChunks]
  rw [storeKeys_smoothChunkBorders, storeKeys_filter_mem]
  constructor
  · intro k
    rw [List.mem_filter, mem_keys_createFold]
    simp only [decide_eq_true_eq]
    tauto
  · exact List.Nodup.filter _
      (nodup_keys_createFold perlin pw nr normalsOf _ σ hnd)

/-- C1: after any `updateChunks(px, pz)` call the store holds exactly one
chunk per coordinate, exactly 49 = (2·chunkRadius+1)² of them, and their
coordinates are exactly those within Chebyshev distance `chunkRadius = 3` of
`floor((playerPos / cellSize) / chunkSize)` per axis. -/
theorem updateChunks_live_set (perlin : Perlin) (pw : ℚ → ℚ) (nr : NoiseRanges)
    (normalsOf : ℤ → ℤ → NArr) (σ : Store) (hnd : (storeKeys σ).Nodup) (px pz : ℚ) :
    (∀ k, k ∈ storeKeys (updateChunks perlin pw nr normalsOf σ px pz) ↔
        |k.1 - chunkCoord px| ≤ chunkRadius ∧ |k.2 - chunkCoord pz| ≤ chunkRadius) ∧
      (storeKeys (updateChunks perlin pw nr normalsOf σ px pz)).Nodup ∧
      (storeKeys (updateChunks perlin pw nr normalsOf σ px pz)).length = 49 := by
  obtain ⟨hmem, hnd'⟩ := updateChunks_keys_spec perlin pw nr normalsOf σ hnd px pz
  refine ⟨fun k => (hmem k).trans (mem_wantedKeys _ _ k), hnd', ?_⟩
  have hperm : List.Perm (storeKeys (updateChunks perlin pw nr normalsOf σ px pz))
      (wantedKeys (chunkCoord px) (chunkCoord pz)) :=
    (List.perm_ext_iff_of_nodup hnd' (nodup_wantedKeys _ _)).mpr hmem
  rw [hperm.length_eq, length_wantedKeys]

/-- Witness for C1 at a concrete input. -/
theorem updateChunks_live_set_witness :
    (storeKeys ([] : Store)).Nodup ∧
      (storeKeys (updateChunks zeroPerlin id unitRanges zeroNormals [] 0 0)).length = 49 :=
  ⟨List.nodup_nil,
    (updateChunks_live_set zeroPerlin id unitRanges zeroNormals [] List.nodup_nil 0 0).2.2⟩

/-- C10: calling `updateChunks` twice with the same player coordinates is
idempotent on the chunk store — the second call creates no chunk and disposes
no chunk (it reduces to the stitching pass alone) and leaves the live key set
exactly as the first call left it. -/
theorem updateChunks_idempotent (perlin : Perlin) (pw : ℚ → ℚ) (nr : NoiseRanges)
    (normalsOf : ℤ → ℤ → NArr) (σ : Store) (hnd : (storeKeys σ).Nodup) (px pz : ℚ) :
    updateChunks perlin pw nr normalsOf (updateChunks perlin pw nr normalsOf σ px pz) px pz =
        smoothChunkBorders (updateChunks perlin pw nr normalsOf σ px pz) ∧
      storeKeys (updateChunks perlin pw nr normalsOf
          (updateChunks perlin pw nr normalsOf σ px pz) px pz) =
        storeKeys (updateChunks perlin pw nr normalsOf σ px pz) := by
  obtain ⟨hmem, hnd'⟩ := updateChunks_keys_spec perlin pw nr normalsOf σ hnd px pz
  set τ := updateChunks perlin pw nr normalsOf σ px pz with hτ
  have hfold : (wantedKeys (chunkCoord px) (chunkCoord pz)).foldl
      (createStep perlin pw nr normalsOf) τ = τ :=
    createFold_of_all_present perlin pw nr normalsOf _ τ
      (fun k hk => (storeHas_iff_mem_keys τ k).mpr ((hmem k).mpr hk))
  have hfilter : τ.filter
      (fun e => decide (e.1 ∈ wantedKeys (chunkCoord px) (chunkCoord pz))) = τ := by
    refine List.filter_eq_self.mpr ?_
    intro e he
    have : e.1 ∈ storeKeys τ := List.mem_map_of_mem Prod.fst he
    simpa using (hmem e.1).mp this
  have hsecond : updateChunks perlin pw nr normalsOf τ px pz = smoothChunkBorders τ := by
    simp only [updateChunks]
    rw [hfold, hfilter]
  exact ⟨hsecond, by rw [hsecond, storeKeys_smoothChunkBorders]⟩

/-- Witness for C10 at a concrete input. -/
theorem updateChunks_idempotent_witness :
    (storeKeys ([] : Store)).Nodup ∧
      storeKeys (updateChunks zeroPerlin id unitRanges zeroNormals
          (updateChunks zeroPerlin id unitRanges zeroNormals [] 0 0) 0 0) =
        storeKeys (updateChunks zeroPerlin id unitRanges zeroNormals [] 0 0) :=
  ⟨List.nodup_nil,
    (updateChunks_idempotent zeroPerlin id unitRanges zeroNormals [] List.nodup_nil 0 0).2⟩

/-! ## Scatter placement (C5): trees, flowers, grass
(`terrain-chunk-utilities.ts`, `grass/grass-utilities.ts`) -/

/-- A placed scatter object (tree or flower/rock): world position, uniform
scale jitter, and prototype index. -/
structure ScatterObject where
  px : ℚ
  py : ℚ
  pz : ℚ
  scaleFactor : ℚ
  protoIndex : ℤ

/-- The options record of `generateTreesForChunk`, with the prototype pool
`baseTrees` represented by its length. -/
structure TreeGenOptions where
  baseTreesLen : ℕ
  centerX : ℚ
  centerZ : ℚ
  chunkPlaneWidth : ℚ
  chunkPlaneDepth : ℚ
  cellSize : ℚ
  lacunarity : ℚ
  treeNoiseOctaves : ℕ
  seed : ℚ
  treeNoisePersistence : ℚ
  treeNoiseScale : ℚ
  maxTreesPerChunk : ℚ
  waterLevel : ℚ

/-- The `for` loop of `generateTreesForChunk`: `rng` is the `Math.random()`
stream, `r` the index of the next unconsumed draw (two draws per rejected
slot, four per placed tree). -/
def treesLoop (o : TreeGenOptions) (samp : ℚ → ℚ → ℚ) (rng : ℕ → ℚ) :
    ℕ → ℕ → List ScatterObject
  | 0, _ => []
  | n + 1, r =>
    let margin := o.cellSize
    let rx := rng r * (o.chunkPlaneWidth - margin * 2) - (o.chunkPlaneWidth / 2 - margin)
    let rz := rng (r + 1) * (o.chunkPlaneDepth - margin * 2) - (o.chunkPlaneDepth / 2 - margin)
    let worldX := o.centerX + rx
    let worldZ := o.centerZ + rz
    let y := samp worldX worldZ
    if y ≤ o.waterLevel + 12 then treesLoop o samp rng n (r + 2)
    else
      let pickIndex := ⌊rng (r + 2) * o.baseTreesLen⌋ % (o.baseTreesLen : ℤ)
      let scaleFactor := 0.6 + rng (r + 3)
      ⟨worldX, y, worldZ, scaleFactor, pickIndex⟩ :: treesLoop o samp rng n (r + 4)

/-- The amplitude-sum normalisation loop of `generateTreesForChunk`. -/
def treeAmpSum (persistence : ℚ) (octaves : ℕ) : ℚ :=
  ((List.range octaves).foldl (fun (s : ℚ × ℚ) _ => (s.1 * persistence, s.2 + s.1)) (1, 0)).2

/-- `generateTreesForChunk`: noise density at the chunk center, bimodal tree
count (full count above the 0.6 threshold, none otherwise), then the
placement loop. -/
def generateTreesForChunk (perlin : Perlin) (samp : ℚ → ℚ → ℚ) (rng : ℕ → ℚ)
    (o : TreeGenOptions) : List ScatterObject :=
  if o.baseTreesLen = 0 then []
  else
    let tRaw := sampleOctaves perlin (o.centerX / o.cellSize) (o.centerZ / o.cellSize)
      { lacunarity := o.lacunarity, octaves := o.treeNoiseOctaves, offsetZ := o.seed + 2048,
        persistence := o.treeNoisePersistence, scale := o.treeNoiseScale }
    let ampSum := treeAmpSum o.treeNoisePersistence o.treeNoiseOctaves
    let densityNormalized := max 0 (min 1 ((tRaw / (if ampSum = 0 then 1 else ampSum) + 1) * 0.5))
    let treeHighThreshold : ℚ := 0.6
    let treeCount : ℕ := if treeHighThreshold < densityNormalized then ⌊o.maxTreesPerChunk⌋.toNat else 0
    treesLoop o samp rng treeCount 0

/-- The options record of `generateFlowersForChunk`. The flower/rock
constructor pool has 7 entries in the source. -/
structure FlowerGenOptions where
  centerX : ℚ
  centerZ : ℚ
  chunkPlaneWidth : ℚ
  chunkPlaneDepth : ℚ
  cellSize : ℚ
  waterLevel : ℚ
  maxDaisiesPerChunk : ℚ
  flowerNoiseScale : ℚ
  seed : ℚ

/-- The `for` loop of `generateFlowersForChunk`: water check, then slope
check via a finite-difference sample one cell away. -/
def flowersLoop (o : FlowerGenOptions) (samp : ℚ → ℚ → ℚ) (rng : ℕ → ℚ) :
    ℕ → ℕ → List ScatterObject
  | 0, _ => []
  | n + 1, r =>
    let flowerMargin := o.cellSize * 0.5
    let rx := rng r * (o.chunkPlaneWidth - flowerMargin * 2) - (o.chunkPlaneWidth / 2 - flowerMargin)
    let rz := rng (r + 1) * (o.chunkPlaneDepth - flowerMargin * 2) - (o.chunkPlaneDepth / 2 - flowerMargin)
    let worldX := o.centerX + rx
    let worldZ := o.centerZ + rz
    let y := samp worldX worldZ
    if y ≤ o.waterLevel + 12 then flowersLoop o samp rng n (r + 2)
    else
      let hNeighbor := samp (worldX + o.cellSize) worldZ
      let slope := |hNeighbor - y| / o.cellSize
      if 0.6 < slope then flowersLoop o samp rng n (r + 2)
      else
        let scaleFactor := 0.8 + rng (r + 2) * 0.4
        let pickIndex := ⌊rng (r + 3) * 7⌋
        ⟨worldX, y, worldZ, scaleFactor, pickIndex⟩ :: flowersLoop o samp rng n (r + 4)

/-- `generateFlowersForChunk`: two-octave noise density at the chunk center
(amplitude sum 1 + 0.5), proportional flower count, then the placement loop. -/
def generateFlowersForChunk (perlin : Perlin) (samp : ℚ → ℚ → ℚ) (rng : ℕ → ℚ)
    (o : FlowerGenOptions) : List ScatterObject :=
  let fRaw := sampleOctaves perlin (o.centerX / o.cellSize) (o.centerZ / o.cellSize)
    { lacunarity := 2, octaves := 2, offsetZ := o.seed + 4096,
      persistence := 0.5, scale := o.flowerNoiseScale }
  let ampSum : ℚ := 1 + 0.5
  let density := max 0 (min 1 ((fRaw / ampSum + 1) * 0.5))
  let flowersCount : ℕ := ⌊density * o.maxDaisiesPerChunk⌋.toNat
  flowersLoop o samp rng flowersCount 0

/-- A placed grass blade instance: chunk-local offset and scale. -/
structure GrassBlade where
  x : ℚ
  y : ℚ
  z : ℚ
  scaleFactor : ℚ

/-- The options of `populateInstanceAttributes` relevant to placement. -/
structure GrassOptions where
  instances : ℕ
  width : ℚ
  centerX : ℚ
  centerZ : ℚ
  waterLevel : ℚ

/-- The placement-probability closure of `populateInstanceAttributes`: a
clamped cubic smoothstep of the sampled height around `waterLevel + 12` with
transition width `fuzz = 12`. -/
def grassPlacementProb (w y : ℚ) : ℚ :=
  let cutoff := w + 12
  let fuzzHalf := (12 : ℚ) * 0.5
  let denom := cutoff + fuzzHalf - (cutoff - fuzzHalf)
  let tv := max 0 (min 1 ((y - (cutoff - fuzzHalf)) / (if denom = 0 then 1 else denom)))
  tv * tv * (3 - 2 * tv)

/-- The pseudo-random position hash of `populateInstanceAttributes`
(`sinFn` abstracts `Math.sin`); a fractional part, hence in `[0, 1)`. -/
def grassPosNoise (sinFn : ℚ → ℚ) (ax bz : ℚ) : ℚ :=
  let noiseSeed := sinFn (ax * 12.9898 + bz * 78.233) * 43758
  noiseSeed - ⌊noiseSeed⌋

/-- The placement loop of `populateInstanceAttributes`: the position hash is
compared against the smoothstep placement probability; `i` is the ascending
loop index, `r` the next unconsumed `Math.random()` draw (the placed branch
also consumes the root-angle draw at `r+2` and the scale draw at `r+3`). The
returned list holds the compacted placed blades, so `placedCount` is its
length. -/
def grassLoop (o : GrassOptions) (samp : ℚ → ℚ → ℚ) (sinFn : ℚ → ℚ) (rng : ℕ → ℚ) :
    ℕ → ℕ → ℕ → List GrassBlade
  | 0, _, _ => []
  | n + 1, i, r =>
    let x := rng r * o.width - o.width / 2
    let z := rng (r + 1) * o.width - o.width / 2
    let y := samp (o.centerX + x) (o.centerZ + z)
    let posNoise := grassPosNoise sinFn (o.centerX + x) (o.centerZ + z)
    if posNoise < grassPlacementProb o.waterLevel y then
      let scaleFactor := if i % 3 ≠ 0 then 2 + rng (r + 3) * 1.25 else 2 + rng (r + 3)
      ⟨x, y, z, scaleFactor⟩ :: grassLoop o samp sinFn rng n (i + 1) (r + 4)
    else grassLoop o samp sinFn rng n (i + 1) (r + 2)

/-- `populateInstanceAttributes`, compacted to the list of placed blades. -/
def populateInstanceAttributes (o : GrassOptions) (samp : ℚ → ℚ → ℚ)
    (sinFn : ℚ → ℚ) (rng : ℕ → ℚ) : List GrassBlade :=
  grassLoop o samp sinFn rng o.instances 0 0

lemma grassPosNoise_nonneg (sinFn : ℚ → ℚ) (ax bz : ℚ) :
    0 ≤ grassPosNoise sinFn ax bz := by
  unfold grassPosNoise
  have := Int.floor_le (sinFn (ax * 12.9898 + bz * 78.233) * 43758)
  simp only
  linarith

/-- A positive placement probability forces the sampled height strictly above
the lower transition edge `waterLevel + 6`. -/
lemma grassPlacementProb_pos {w y : ℚ} (h : 0 < grassPlacementProb w y) : w + 6 < y := by
  unfold grassPlacementProb at h
  simp only at h
  have hdenom : w + 12 + 12 * 0.5 - (w + 12 - 12 * 0.5) = 12 := by ring
  rw [hdenom, if_neg (by norm_num)] at h
  set t := max 0 (min 1 ((y - (w + 12 - 12 * 0.5)) / 12)) with ht
  have h0 : (0 : ℚ) ≤ t := le_max_left _ _
  have hpos : 0 < t := by
    by_contra hc
    push_neg at hc
    have hz : t = 0 := le_antisymm hc h0
    rw [hz] at h
    norm_num at h
  have hmin : 0 < min 1 ((y - (w + 12 - 12 * 0.5)) / 12) := by
    rcases lt_max_iff.mp hpos with hx | hx
    · exact absurd hx (by norm_num)
    · exact hx
  have harg : 0 < (y - (w + 12 - 12 * 0.5)) / 12 := (lt_min_iff.mp hmin).2
  have harg2 : 0 < y - (w + 12 - 12 * 0.5) := by linarith
  linarith

lemma treesLoop_above_water (o : TreeGenOptions) (samp : ℚ → ℚ → ℚ) (rng : ℕ → ℚ)
    (n r : ℕ) :
    ∀ x ∈ treesLoop o samp rng n r,
      o.waterLevel + 12 < samp x.px x.pz ∧ x.py = samp x.px x.pz := by
  induction n generalizing r with
  | zero => simp [treesLoop]
  | succ n ih =>
    intro x hx
    simp only [treesLoop] at hx
    split at hx
    case isTrue h => exact ih (r + 2) x hx
    case isFalse h =>
      rcases List.mem_cons.mp hx with hx | hx
      · subst hx
        exact ⟨not_le.mp h, rfl⟩
      · exact ih (r + 4) x hx

lemma flowersLoop_above_water (o : FlowerGenOptions) (samp : ℚ → ℚ → ℚ) (rng : ℕ → ℚ)
    (n r : ℕ) :
    ∀ x ∈ flowersLoop o samp rng n r,
      o.waterLevel + 12 < samp x.px x.pz ∧ x.py = samp x.px x.pz := by
  induction n generalizing r with
  | zero => simp [flowersLoop]
  | succ n ih =>
    intro x hx
    simp only [flowersLoop] at hx
    split at hx
    case isTrue h => exact ih (r + 2) x hx
    case isFalse h =>
      split at hx
      case isTrue h2 => exact ih (r + 2) x hx
      case isFalse h2 =>
        rcases List.mem_cons.mp hx with hx | hx
        · subst hx
          exact ⟨not_le.mp h, rfl⟩
        · exact ih (r + 4) x hx

lemma grassLoop_above_water (o : GrassOptions) (samp : ℚ → ℚ → ℚ) (sinFn : ℚ → ℚ)
    (rng : ℕ → ℚ) (n i r : ℕ) :
    ∀ b ∈ grassLoop o samp sinFn rng n i r,
      o.waterLevel + 6 < samp (o.centerX + b.x) (o.centerZ + b.z) ∧
        b.y = samp (o.centerX + b.x) (o.centerZ + b.z) := by
  induction n generalizing i r with
  | zero => simp [grassLoop]
  | succ n ih =>
    intro b hb
    simp only [grassLoop] at hb
    split at hb
    case isTrue hplace =>
      rcases List.mem_cons.mp hb with hb | hb
      · subst hb
        refine ⟨?_, rfl⟩
        have hpn := grassPosNoise_nonneg sinFn
          (o.centerX + (rng r * o.width - o.width / 2))
          (o.centerZ + (rng (r + 1) * o.width - o.width / 2))
        exact grassPlacementProb_pos (lt_of_le_of_lt hpn hplace)
      · exact ih (i + 1) (r + 4) b hb
    case isFalse hplace =>
      exact ih (i + 1) (r + 2) b hb

/-- C5: with the configured `waterLevel = 16`, every placed tree and flower
has a sampled ground height strictly above `waterLevel + 12 = 28`, and every
placed grass blade has a sampled ground height strictly above `waterLevel`
(in fact above `waterLevel + 6`, the smoothstep's lower edge). -/
theorem scatter_respects_water (perlin : Perlin) (samp : ℚ → ℚ → ℚ) (sinFn : ℚ → ℚ)
    (rng : ℕ → ℚ) (oT : TreeGenOptions) (hT : oT.waterLevel = waterLevel)
    (oF : FlowerGenOptions) (hF : oF.waterLevel = waterLevel)
    (oG : GrassOptions) (hG : oG.waterLevel = waterLevel) :
    (∀ x ∈ generateTreesForChunk perlin samp rng oT,
        waterLevel + 12 < samp x.px x.pz ∧ x.py = samp x.px x.pz) ∧
      (∀ x ∈ generateFlowersForChunk perlin samp rng oF,
        waterLevel + 12 < samp x.px x.pz ∧ x.py = samp x.px x.pz) ∧
      (∀ b ∈ populateInstanceAttributes oG samp sinFn rng,
        waterLevel < samp (oG.centerX + b.x) (oG.centerZ + b.z)) := by
  refine ⟨?_, ?_, ?_⟩
  · intro x hx
    simp only [generateTreesForChunk] at hx
    split at hx
    · exact absurd hx (List.not_mem_nil x)
    · have h := treesLoop_above_water oT samp rng _ 0 x hx
      rw [hT] at h
      exact h
  · intro x hx
    simp only [generateFlowersForChunk] at hx
    have h := flowersLoop_above_water oF samp rng _ 0 x hx
    rw [hF] at h
    exact h
  · intro b hb
    have h := grassLoop_above_water oG samp sinFn rng oG.instances 0 0 b hb
    rw [hG] at h
    linarith [h.1]

/-- Concrete scatter inputs for the C5 witness. -/
def treeOptsW : TreeGenOptions :=
  { baseTreesLen := 1, centerX := 0, centerZ := 0, chunkPlaneWidth := 4,
    chunkPlaneDepth := 4, cellSize := 1, lacunarity := 2, treeNoiseOctaves := 1,
    seed := 42, treeNoisePersistence := 1/2, treeNoiseScale := 1,
    maxTreesPerChunk := 1, waterLevel := waterLevel }

def flowerOptsW : FlowerGenOptions :=
  { centerX := 0, centerZ := 0, chunkPlaneWidth := 4, chunkPlaneDepth := 4,
    cellSize := 1, waterLevel := waterLevel, maxDaisiesPerChunk := 1,
    flowerNoiseScale := 1, seed := 42 }

def grassOptsW : GrassOptions :=
  { instances := 1, width := 2, centerX := 0, centerZ := 0, waterLevel := waterLevel }

def treeObjW : ScatterObject := ⟨0, 100, 0, 0.6 + 1/2, 0⟩

def flowerObjW : ScatterObject := ⟨0, 100, 0, 0.8 + 1/2 * 0.4, 3⟩

def bladeW : GrassBlade := ⟨0, 100, 0, 2 + 1/2⟩

/-- Witness for C5 at a concrete input. -/
theorem scatter_respects_water_witness :
    (treeOptsW.waterLevel = waterLevel ∧ flowerOptsW.waterLevel = waterLevel ∧
        grassOptsW.waterLevel = waterLevel ∧
        treeObjW ∈ generateTreesForChunk (fun _ _ _ => 1) (fun _ _ => 100)
          (fun _ => 1/2) treeOptsW ∧
        flowerObjW ∈ generateFlowersForChunk (fun _ _ _ => 1) (fun _ _ => 100)
          (fun _ => 1/2) flowerOptsW ∧
        bladeW ∈ populateInstanceAttributes grassOptsW (fun _ _ => 100)
          (fun _ => 0) (fun _ => 1/2)) ∧
      (waterLevel + 12 < (100 : ℚ) ∧ waterLevel < (100 : ℚ)) := by
  have hmT : treeObjW ∈ generateTreesForChunk (fun _ _ _ => 1) (fun _ _ => 100)
      (fun _ => 1/2) treeOptsW := by
    norm_num [generateTreesForChunk, treesLoop, sampleOctaves, treeAmpSum, treeOptsW,
      treeObjW, waterLevel, List.range_succ, List.range_zero]
  have hmF : flowerObjW ∈ generateFlowersForChunk (fun _ _ _ => 1) (fun _ _ => 100)
      (fun _ => 1/2) flowerOptsW := by
    norm_num [generateFlowersForChunk, flowersLoop, sampleOctaves, flowerOptsW,
      flowerObjW, waterLevel, List.range_succ, List.range_zero]
  have hmG : bladeW ∈ populateInstanceAttributes grassOptsW (fun _ _ => 100)
      (fun _ => 0) (fun _ => 1/2) := by
    norm_num [populateInstanceAttributes, grassLoop, grassOptsW, bladeW,
      grassPosNoise, grassPlacementProb, waterLevel]
  have hthm := scatter_respects_water (fun _ _ _ => 1) (fun _ _ => 100) (fun _ => 0)
    (fun _ => 1/2) treeOptsW rfl flowerOptsW rfl grassOptsW rfl
  exact ⟨⟨rfl, rfl, rfl, hmT, hmF, hmG⟩,
    (hthm.1 treeObjW hmT).1, hthm.2.2 bladeW hmG⟩

/-! ## Border stitching equalities (C2) -/

/-- The normal vector stored for chunk `k` at vertex `i`, if the chunk is live. -/
def normAt (σ : Store) (k : ℤ × ℤ) (i : ℕ) : Option V3 :=
  (storeGet σ k).map fun c => c.normals i

lemma normAt_storeSet (s : Store) (k : ℤ × ℤ) (c : TerrainChunk) (q : ℤ × ℤ) (j : ℕ) :
    normAt (storeSet s k c) q j =
      if q = k then (storeGet s k).map (fun _ => c.normals j) else normAt s q j := by
  unfold normAt
  rw [storeGet_storeSet]
  by_cases h : q = k
  · rw [if_pos h, if_pos h, Option.map_map]
    rfl
  · rw [if_neg h, if_neg h]

/-- Reading a stitch-loop result at an index the `a`-side never writes. -/
lemma stitchPair_fst_notin (ias ibs : ℕ → ℕ) (n : ℕ) (a b : NArr) (j : ℕ)
    (h : ∀ t < n, ias t ≠ j) :
    (stitchPair ias ibs n a b).1 j = a j := by
  induction n with
  | zero => rfl
  | succ n ih =>
    simp only [stitchPair, stitchStep, updN]
    rw [if_neg (fun hj => h n (by omega) hj.symm)]
    exact ih fun t ht => h t (by omega)

/-- Reading a stitch-loop result at an index the `b`-side never writes. -/
lemma stitchPair_snd_notin (ias ibs : ℕ → ℕ) (n : ℕ) (a b : NArr) (j : ℕ)
    (h : ∀ t < n, ibs t ≠ j) :
    (stitchPair ias ibs n a b).2 j = b j := by
  induction n with
  | zero => rfl
  | succ n ih =>
    simp only [stitchPair, stitchStep, updN]
    rw [if_neg (fun hj => h n (by omega) hj.symm)]
    exact ih fun t ht => h t (by omega)

/-- With injective, non-overlapping index patterns, iteration `t` of a stitch
loop leaves both of its target entries holding the midpoint of the original
values — the later iterations do not interfere. -/
lemma stitchPair_apply_eq (ias ibs : ℕ → ℕ) (n : ℕ) :
    ∀ (a b : NArr),
      (∀ t < n, ∀ t' < n, ias t = ias t' → t = t') →
      (∀ t < n, ∀ t' < n, ibs t = ibs t' → t = t') →
      (∀ t < n, ∀ t' < n, ias t ≠ ibs t') →
      ∀ t < n,
        (stitchPair ias ibs n a b).1 (ias t) = midV (a (ias t)) (b (ibs t)) ∧
          (stitchPair ias ibs n a b).2 (ibs t) = midV (a (ias t)) (b (ibs t)) := by
  induction n with
  | zero =>
    intro a b _ _ _ t ht
    omega
  | succ n ih =>
    intro a b hia hib hx t ht
    simp only [stitchPair, stitchStep, updN]
    rcases Nat.lt_succ_iff_lt_or_eq.mp ht with htn | rfl
    · have hne1 : ias t ≠ ias n := fun hh =>
        absurd (hia t (by omega) n (by omega) hh) (by omega)
      have hne2 : ibs t ≠ ibs n := fun hh =>
        absurd (hib t (by omega) n (by omega) hh) (by omega)
      rw [if_neg hne1, if_neg hne2]
      exact ih a b (fun u hu u' hu' => hia u (by omega) u' (by omega))
        (fun u hu u' hu' => hib u (by omega) u' (by omega))
        (fun u hu u' hu' => hx u (by omega) u' (by omega)) t htn
    · rw [if_pos rfl, if_pos rfl]
      have e1 : (stitchPair ias ibs t a b).1 (ias t) = a (ias t) :=
        stitchPair_fst_notin ias ibs t a b (ias t) fun u hu hh =>
          absurd (hia u (by omega) t (by omega) hh) (by omega)
      have e2 : (stitchPair ias ibs t a b).2 (ibs t) = b (ibs t) :=
        stitchPair_snd_notin ias ibs t a b (ibs t) fun u hu hh =>
          absurd (hib u (by omega) t (by omega) hh) (by omega)
      rw [e1, e2]
      exact ⟨rfl, rfl⟩

/-- `stitchX` when both chunks are live, as a double store update. -/
lemma stitchX_eq_of_some {σ : Store} {k : ℤ × ℤ} {A B : TerrainChunk}
    (hA : storeGet σ k = some A) (hB : storeGet σ (k.1 + 1, k.2) = some B) :
    stitchX σ k =
      storeSet (storeSet σ k
          { A with normals := (stitchPair iaX ibX cd A.normals B.normals).1 })
        (k.1 + 1, k.2)
        { B with normals := (stitchPair iaX ibX cd A.normals B.normals).2 } := by
  unfold stitchX
  rw [hA, hB]

/-- `stitchZ` when both chunks are live, as a double store update. -/
lemma stitchZ_eq_of_some {σ : Store} {k : ℤ × ℤ} {A B : TerrainChunk}
    (hA : storeGet σ k = some A) (hB : storeGet σ (k.1, k.2 + 1) = some B) :
    stitchZ σ k =
      storeSet (storeSet σ k
          { A with normals := (stitchPair iaZ ibZ cw A.normals B.normals).1 })
        (k.1, k.2 + 1)
        { B with normals := (stitchPair iaZ ibZ cw A.normals B.normals).2 } := by
  unfold stitchZ
  rw [hA, hB]

lemma stitchX_of_noneB {σ : Store} {k : ℤ × ℤ}
    (hB : storeGet σ (k.1 + 1, k.2) = none) : stitchX σ k = σ := by
  unfold stitchX
  rw [hB]
  rcases storeGet σ k with _ | A <;> rfl

lemma stitchZ_of_noneB {σ : Store} {k : ℤ × ℤ}
    (hB : storeGet σ (k.1, k.2 + 1) = none) : stitchZ σ k = σ := by
  unfold stitchZ
  rw [hB]
  rcases storeGet σ k with _ | A <;> rfl

lemma stitchX_of_noneA {σ : Store} {k : ℤ × ℤ}
    (hA : storeGet σ k = none) : stitchX σ k = σ := by
  unfold stitchX
  rw [hA]

lemma stitchZ_of_noneA {σ : Store} {k : ℤ × ℤ}
    (hA : storeGet σ k = none) : stitchZ σ k = σ := by
  unfold stitchZ
  rw [hA]

lemma neX (k : ℤ × ℤ) : (k.1 + 1, k.2) ≠ k := by
  intro h
  have h1 := congrArg Prod.fst h
  simp only at h1
  omega

lemma neZ (k : ℤ × ℤ) : (k.1, k.2 + 1) ≠ k := by
  intro h
  have h1 := congrArg Prod.snd h
  simp only at h1
  omega

/-- After the `+X` stitch of `k`, both matching boundary entries at row `lz`
hold the midpoint of the two original normals. -/
lemma stitchX_normAt_edge {σ : Store} {k : ℤ × ℤ} {A B : TerrainChunk}
    (hA : storeGet σ k = some A) (hB : storeGet σ (k.1 + 1, k.2) = some B)
    (lz : ℕ) (hlz : lz < cd) :
    normAt (stitchX σ k) k (iaX lz) =
        some (midV (A.normals (iaX lz)) (B.normals (ibX lz))) ∧
      normAt (stitchX σ k) (k.1 + 1, k.2) (ibX lz) =
        some (midV (A.normals (iaX lz)) (B.normals (ibX lz))) := by
  have hinj : ∀ t < cd, ∀ t' < cd, iaX t = iaX t' → t = t' := by
    simp only [iaX, cw, cd, chunkSize]
    omega
  have hinj' : ∀ t < cd, ∀ t' < cd, ibX t = ibX t' → t = t' := by
    simp only [ibX, cw, cd, chunkSize]
    omega
  have hcross : ∀ t < cd, ∀ t' < cd, iaX t ≠ ibX t' := by
    simp only [iaX, ibX, cw, cd, chunkSize]
    omega
  have happ := stitchPair_apply_eq iaX ibX cd A.normals B.normals hinj hinj' hcross lz hlz
  rw [stitchX_eq_of_some hA hB]
  constructor
  · rw [normAt_storeSet, if_neg (Ne.symm (neX k)), normAt_storeSet, if_pos rfl, hA,
      Option.map_some']
    exact congrArg some happ.1
  · rw [normAt_storeSet, if_pos rfl, storeGet_storeSet, if_neg (neX k), hB,
      Option.map_some']
    exact congrArg some happ.2

/-- After the `+Z` stitch of `k`, both matching boundary entries at column
`lx` hold the midpoint of the two original normals. -/
lemma stitchZ_normAt_edge {σ : Store} {k : ℤ × ℤ} {A B : TerrainChunk}
    (hA : storeGet σ k = some A) (hB : storeGet σ (k.1, k.2 + 1) = some B)
    (lx : ℕ) (hlx : lx < cw) :
    normAt (stitchZ σ k) k (iaZ lx) =
        some (midV (A.normals (iaZ lx)) (B.normals (ibZ lx))) ∧
      normAt (stitchZ σ k) (k.1, k.2 + 1) (ibZ lx) =
        some (midV (A.normals (iaZ lx)) (B.normals (ibZ lx))) := by
  have hinj : ∀ t < cw, ∀ t' < cw, iaZ t = iaZ t' → t = t' := by
    simp only [iaZ, cw, cd, chunkSize]
    omega
  have hinj' : ∀ t < cw, ∀ t' < cw, ibZ t = ibZ t' → t = t' := by
    simp only [ibZ, cw, cd, chunkSize]
    omega
  have hcross : ∀ t < cw, ∀ t' < cw, iaZ t ≠ ibZ t' := by
    simp only [iaZ, ibZ, cw, cd, chunkSize]
    omega
  have happ := stitchPair_apply_eq iaZ ibZ cw A.normals B.normals hinj hinj' hcross lx hlx
  rw [stitchZ_eq_of_some hA hB]
  constructor
  · rw [normAt_storeSet, if_neg (Ne.symm (neZ k)), normAt_storeSet, if_pos rfl, hA,
      Option.map_some']
    exact congrArg some happ.1
  · rw [normAt_storeSet, if_pos rfl, storeGet_storeSet, if_neg (neZ k), hB,
      Option.map_some']
    exact congrArg some happ.2

/-- The `+X` stitch of `k` leaves every normal entry outside its two target
edges unchanged. -/
lemma stitchX_normAt_untouched (σ : Store) (k q : ℤ × ℤ) (j : ℕ)
    (hqa : q = k → ∀ lz < cd, iaX lz ≠ j)
    (hqb : q = (k.1 + 1, k.2) → ∀ lz < cd, ibX lz ≠ j) :
    normAt (stitchX σ k) q j = normAt σ q j := by
  rcases hA : storeGet σ k with _ | A
  · rw [stitchX_of_noneA hA]
  rcases hB : storeGet σ (k.1 + 1, k.2) with _ | B
  · rw [stitchX_of_noneB hB]
  rw [stitchX_eq_of_some hA hB, normAt_storeSet]
  by_cases h2 : q = (k.1 + 1, k.2)
  · rw [if_pos h2, storeGet_storeSet, if_neg (neX k), hB, Option.map_some']
    unfold normAt
    rw [h2, hB, Option.map_some']
    exact congrArg some
      (stitchPair_snd_notin iaX ibX cd A.normals B.normals j (hqb h2))
  · rw [if_neg h2, normAt_storeSet]
    by_cases h1 : q = k
    · rw [if_pos h1, hA, Option.map_some']
      unfold normAt
      rw [h1, hA, Option.map_some']
      exact congrArg some
        (stitchPair_fst_notin iaX ibX cd A.normals B.normals j (hqa h1))
    · rw [if_neg h1]

/-- The `+Z` stitch of `k` leaves every normal entry outside its two target
edges unchanged. -/
lemma stitchZ_normAt_untouched (σ : Store) (k q : ℤ × ℤ) (j : ℕ)
    (hqa : q = k → ∀ lx < cw, iaZ lx ≠ j)
    (hqb : q = (k.1, k.2 + 1) → ∀ lx < cw, ibZ lx ≠ j) :
    normAt (stitchZ σ k) q j = normAt σ q j := by
  rcases hA : storeGet σ k with _ | A
  · rw [stitchZ_of_noneA hA]
  rcases hB : storeGet σ (k.1, k.2 + 1) with _ | B
  · rw [stitchZ_of_noneB hB]
  rw [stitchZ_eq_of_some hA hB, normAt_storeSet]
  by_cases h2 : q = (k.1, k.2 + 1)
  · rw [if_pos h2, storeGet_storeSet, if_neg (neZ k), hB, Option.map_some']
    unfold normAt
    rw [h2, hB, Option.map_some']
    exact congrArg some
      (stitchPair_snd_notin iaZ ibZ cw A.normals B.normals j (hqb h2))
  · rw [if_neg h2, normAt_storeSet]
    by_cases h1 : q = k
    · rw [if_pos h1, hA, Option.map_some']
      unfold normAt
      rw [h1, hA, Option.map_some']
      exact congrArg some
        (stitchPair_fst_notin iaZ ibZ cw A.normals B.normals j (hqa h1))
    · rw [if_neg h1]

lemma storeGet_isSome_of_keys_eq {σ₁ σ₂ : Store} (h : storeKeys σ₁ = storeKeys σ₂)
    {q : ℤ × ℤ} {c : TerrainChunk} (hq : storeGet σ₂ q = some c) :
    ∃ c', storeGet σ₁ q = some c' := by
  have h2 : storeHas σ₂ q := by
    unfold storeHas
    rw [hq]
    rfl
  have h1 : storeHas σ₁ q := by
    rw [storeHas_iff_mem_keys, h, ← storeHas_iff_mem_keys]
    exact h2
  exact Option.isSome_iff_exists.mp h1

/-- Processing key `(cx, cz)` equalises the matching `+X` boundary normals at
every interior row `1 ≤ lz ≤ 7` (the subsequent `+Z` stitch of the same key
does not touch them). -/
lemma processKey_estX (σ : Store) (cx cz : ℤ) {A B : TerrainChunk}
    (hA : storeGet σ (cx, cz) = some A) (hB : storeGet σ (cx + 1, cz) = some B)
    (lz : ℕ) (h1 : 1 ≤ lz) (h7 : lz ≤ 7) :
    normAt (processKey σ (cx, cz)) (cx, cz) (iaX lz) =
      normAt (processKey σ (cx, cz)) (cx + 1, cz) (ibX lz) := by
  unfold processKey
  rw [hA]
  have hedge := stitchX_normAt_edge hA hB lz (by simp only [cd, chunkSize]; omega)
  have p1 := stitchZ_normAt_untouched (stitchX σ (cx, cz)) (cx, cz) (cx, cz) (iaX lz)
    (fun _ => by simp only [iaZ, iaX, cw, cd, chunkSize]; omega)
    (fun h => by
      have h2 := congrArg Prod.snd h
      simp only at h2
      omega)
  have p2 := stitchZ_normAt_untouched (stitchX σ (cx, cz)) (cx, cz) (cx + 1, cz) (ibX lz)
    (fun h => by
      have h2 := congrArg Prod.fst h
      simp only at h2
      omega)
    (fun h => by
      have h2 := congrArg Prod.fst h
      simp only at h2
      omega)
  rw [p1, p2, hedge.1, hedge.2]

/-- Processing key `(cx, cz)` equalises the matching `+Z` boundary normals at
every interior column `1 ≤ lx ≤ 7` (the preceding `+X` stitch of the same key
does not touch them). -/
lemma processKey_estZ (σ : Store) (cx cz : ℤ) {A C : TerrainChunk}
    (hA : storeGet σ (cx, cz) = some A) (hC : storeGet σ (cx, cz + 1) = some C)
    (lx : ℕ) (h1 : 1 ≤ lx) (h7 : lx ≤ 7) :
    normAt (processKey σ (cx, cz)) (cx, cz) (iaZ lx) =
      normAt (processKey σ (cx, cz)) (cx, cz + 1) (ibZ lx) := by
  unfold processKey
  rw [hA]
  obtain ⟨A₁, hA₁⟩ := storeGet_isSome_of_keys_eq (storeKeys_stitchX σ (cx, cz)) hA
  obtain ⟨C₁, hC₁⟩ := storeGet_isSome_of_keys_eq (storeKeys_stitchX σ (cx, cz)) hC
  have h9 : lx < cw := by simp only [cw, chunkSize]; omega
  exact ((stitchZ_normAt_edge hA₁ hC₁ lx h9).1).trans
    ((stitchZ_normAt_edge hA₁ hC₁ lx h9).2).symm

/-- Processing any other key leaves both sides of an interior `+X` boundary
pair of `(cx, cz)`/`(cx+1, cz)` unchanged. -/
lemma processKey_presX (σ : Store) (k' : ℤ × ℤ) (cx cz : ℤ) (hne : k' ≠ (cx, cz))
    (lz : ℕ) (h1 : 1 ≤ lz) (h7 : lz ≤ 7) :
    normAt (processKey σ k') (cx, cz) (iaX lz) = normAt σ (cx, cz) (iaX lz) ∧
      normAt (processKey σ k') (cx + 1, cz) (ibX lz) =
        normAt σ (cx + 1, cz) (ibX lz) := by
  unfold processKey
  rcases hA : storeGet σ k' with _ | A
  · exact ⟨rfl, rfl⟩
  constructor
  · rw [stitchZ_normAt_untouched (stitchX σ k') k' (cx, cz) (iaX lz)
        (fun h => absurd h.symm hne)
        (fun _ => by simp only [ibZ, iaX, cw, cd, chunkSize]; omega),
      stitchX_normAt_untouched σ k' (cx, cz) (iaX lz)
        (fun h => absurd h.symm hne)
        (fun _ => by simp only [ibX, iaX, cw, cd, chunkSize]; omega)]
  · rw [stitchZ_normAt_untouched (stitchX σ k') k' (cx + 1, cz) (ibX lz)
        (fun _ => by simp only [iaZ, ibX, cw, cd, chunkSize]; omega)
        (fun _ => by simp only [ibZ, ibX, cw, cd, chunkSize]; omega),
      stitchX_normAt_untouched σ k' (cx + 1, cz) (ibX lz)
        (fun _ => by simp only [iaX, ibX, cw, cd, chunkSize]; omega)
        (fun h => by
          have h2 := congrArg Prod.fst h
          have h3 := congrArg Prod.snd h
          simp only at h2 h3
          exact (hne (Prod.ext (by omega) (by omega))).elim)]

/-- Processing any other key leaves both sides of an interior `+Z` boundary
pair of `(cx, cz)`/`(cx, cz+1)` unchanged. -/
lemma processKey_presZ (σ : Store) (k' : ℤ × ℤ) (cx cz : ℤ) (hne : k' ≠ (cx, cz))
    (lx : ℕ) (h1 : 1 ≤ lx) (h7 : lx ≤ 7) :
    normAt (processKey σ k') (cx, cz) (iaZ lx) = normAt σ (cx, cz) (iaZ lx) ∧
      normAt (processKey σ k') (cx, cz + 1) (ibZ lx) =
        normAt σ (cx, cz + 1) (ibZ lx) := by
  unfold processKey
  rcases hA : storeGet σ k' with _ | A
  · exact ⟨rfl, rfl⟩
  constructor
  · rw [stitchZ_normAt_untouched (stitchX σ k') k' (cx, cz) (iaZ lx)
        (fun h => absurd h.symm hne)
        (fun _ => by simp only [ibZ, iaZ, cw, cd, chunkSize]; omega),
      stitchX_normAt_untouched σ k' (cx, cz) (iaZ lx)
        (fun h => absurd h.symm hne)
        (fun _ => by simp only [ibX, iaZ, cw, cd, chunkSize]; omega)]
  · rw [stitchZ_normAt_untouched (stitchX σ k') k' (cx, cz + 1) (ibZ lx)
        (fun _ => by simp only [iaZ, ibZ, cw, cd, chunkSize]; omega)
        (fun h => by
          have h2 := congrArg Prod.fst h
          have h3 := congrArg Prod.snd h
          simp only at h2 h3
          exact (hne (Prod.ext (by omega) (by omega))).elim),
      stitchX_normAt_untouched σ k' (cx, cz + 1) (ibZ lx)
        (fun _ => by simp only [iaX, ibZ, cw, cd, chunkSize]; omega)
        (fun _ => by simp only [ibX, ibZ, cw, cd, chunkSize]; omega)]

lemma foldl_P_X (l : List (ℤ × ℤ)) (σ : Store) (cx cz : ℤ) (lz : ℕ)
    (h1 : 1 ≤ lz) (h7 : lz ≤ 7) (hnotin : (cx, cz) ∉ l)
    (hP : normAt σ (cx, cz) (iaX lz) = normAt σ (cx + 1, cz) (ibX lz)) :
    normAt (l.foldl processKey σ) (cx, cz) (iaX lz) =
      normAt (l.foldl processKey σ) (cx + 1, cz) (ibX lz) := by
  induction l generalizing σ with
  | nil => exact hP
  | cons k' t ih =>
    rw [List.foldl_cons]
    have hne : k' ≠ (cx, cz) := fun h => hnotin (h ▸ List.mem_cons_self k' t)
    have hp := processKey_presX σ k' cx cz hne lz h1 h7
    exact ih (processKey σ k') (fun h => hnotin (List.mem_cons_of_mem k' h))
      (by rw [hp.1, hp.2, hP])

lemma foldl_P_Z (l : List (ℤ × ℤ)) (σ : Store) (cx cz : ℤ) (lx : ℕ)
    (h1 : 1 ≤ lx) (h7 : lx ≤ 7) (hnotin : (cx, cz) ∉ l)
    (hP : normAt σ (cx, cz) (iaZ lx) = normAt σ (cx, cz + 1) (ibZ lx)) :
    normAt (l.foldl processKey σ) (cx, cz) (iaZ lx) =
      normAt (l.foldl processKey σ) (cx, cz + 1) (ibZ lx) := by
  induction l generalizing σ with
  | nil => exact hP
  | cons k' t ih =>
    rw [List.foldl_cons]
    have hne : k' ≠ (cx, cz) := fun h => hnotin (h ▸ List.mem_cons_self k' t)
    have hp := processKey_presZ σ k' cx cz hne lx h1 h7
    exact ih (processKey σ k') (fun h => hnotin (List.mem_cons_of_mem k' h))
      (by rw [hp.1, hp.2, hP])

/-- C2 (amended): after `smoothChunkBorders`, for any two adjacent live
chunks (`+X` or `+Z` neighbors), the normals stored at every matching
*interior* boundary vertex pair (`1 ≤ t ≤ 7`, excluding the two shared edge
corners) are equal. At corner vertices shared by more than two chunks,
equality can fail — see `smooth_borders_corner_mismatch`. -/
theorem smooth_borders_interior_normals_match (σ : Store)
    (hnd : (storeKeys σ).Nodup) (cx cz : ℤ) (A : TerrainChunk)
    (hA : storeGet σ (cx, cz) = some A) :
    (∀ B : TerrainChunk, storeGet σ (cx + 1, cz) = some B →
        ∀ lz : ℕ, 1 ≤ lz → lz ≤ 7 →
          normAt (smoothChunkBorders σ) (cx, cz) (iaX lz) =
            normAt (smoothChunkBorders σ) (cx + 1, cz) (ibX lz)) ∧
      (∀ C : TerrainChunk, storeGet σ (cx, cz + 1) = some C →
        ∀ lx : ℕ, 1 ≤ lx → lx ≤ 7 →
          normAt (smoothChunkBorders σ) (cx, cz) (iaZ lx) =
            normAt (smoothChunkBorders σ) (cx, cz + 1) (ibZ lx)) := by
  have hmem : (cx, cz) ∈ storeKeys σ := by
    rw [← storeHas_iff_mem_keys]
    unfold storeHas
    rw [hA]
    rfl
  obtain ⟨l1, l2, hsplit⟩ := List.append_of_mem hmem
  have hnotin : (cx, cz) ∉ l2 := by
    rw [hsplit] at hnd
    exact (List.nodup_cons.mp (List.Nodup.of_append_right hnd)).1
  have hkeys1 : storeKeys (l1.foldl processKey σ) = storeKeys σ :=
    storeKeys_foldl_processKey l1 σ
  have hfold : smoothChunkBorders σ =
      l2.foldl processKey (processKey (l1.foldl processKey σ) (cx, cz)) := by
    unfold smoothChunkBorders
    rw [hsplit, List.foldl_append, List.foldl_cons]
  constructor
  · intro B hB lz h1 h7
    obtain ⟨A', hA'⟩ := storeGet_isSome_of_keys_eq hkeys1 hA
    obtain ⟨B', hB'⟩ := storeGet_isSome_of_keys_eq hkeys1 hB
    rw [hfold]
    exact foldl_P_X l2 _ cx cz lz h1 h7 hnotin
      (processKey_estX (l1.foldl processKey σ) cx cz hA' hB' lz h1 h7)
  · intro C hC lx h1 h7
    obtain ⟨A', hA'⟩ := storeGet_isSome_of_keys_eq hkeys1 hA
    obtain ⟨C', hC'⟩ := storeGet_isSome_of_keys_eq hkeys1 hC
    rw [hfold]
    exact foldl_P_Z l2 _ cx cz lx h1 h7 hnotin
      (processKey_estZ (l1.foldl processKey σ) cx cz hA' hC' lx h1 h7)

/-- Witness for C2 (amended) at a concrete input. -/
theorem smooth_borders_interior_normals_match_witness :
    ((storeKeys demoStore2).Nodup ∧ storeGet demoStore2 (0, 0) = some demoChunk00 ∧
        storeGet demoStore2 (0 + 1, 0) = some demoChunk10 ∧ (1 : ℕ) ≤ 3 ∧ (3 : ℕ) ≤ 7) ∧
      normAt (smoothChunkBorders demoStore2) (0, 0) (iaX 3) =
        normAt (smoothChunkBorders demoStore2) (0 + 1, 0) (ibX 3) := by
  have hnd : (storeKeys demoStore2).Nodup := by
    decide
  have hA : storeGet demoStore2 (0, 0) = some demoChunk00 := rfl
  have hB : storeGet demoStore2 (0 + 1, 0) = some demoChunk10 := rfl
  exact ⟨⟨hnd, hA, hB, by omega, by omega⟩,
    (smooth_borders_interior_normals_match demoStore2 hnd 0 0 demoChunk00 hA).1
      demoChunk10 hB 3 (by omega) (by omega)⟩

lemma storeGet_none_of_keys_eq {σ₁ σ₂ : Store} (h : storeKeys σ₁ = storeKeys σ₂)
    {q : ℤ × ℤ} (hq : storeGet σ₂ q = none) : storeGet σ₁ q = none := by
  have h2 : ¬ storeHas σ₂ q := by
    unfold storeHas
    rw [hq]
    simp
  have h1 : ¬ storeHas σ₁ q := by
    rw [storeHas_iff_mem_keys, h, ← storeHas_iff_mem_keys]
    exact h2
  unfold storeHas at h1
  exact Option.not_isSome_iff_eq_none.mp (by simpa using h1)

/-- Normal arrays for the counterexample store: constant per chunk, pairwise
distinct for the three live chunks. -/
def cexNormals (cx cz : ℤ) : NArr :=
  fun _ =>
    ⟨if (cx, cz) = ((0 : ℤ), (0 : ℤ)) then 4
      else if (cx, cz) = ((1 : ℤ), (0 : ℤ)) then 0 else 8, 0, 0⟩

def cexA : TerrainChunk := mkChunk zeroPerlin id unitRanges cexNormals 0 0

def cexB : TerrainChunk := mkChunk zeroPerlin id unitRanges cexNormals 1 0

def cexC : TerrainChunk := mkChunk zeroPerlin id unitRanges cexNormals 0 1

/-- An L-shaped live set: the corner vertex of chunk (0,0) at `(lx, lz) =
(8, 8)` is shared by all three chunks. -/
def cexStore : Store := [((0, 0), cexA), ((1, 0), cexB), ((0, 1), cexC)]

/-- Counterexample to C2 as stated: after the stitching pass on `cexStore`,
the two adjacent live chunks (0,0) and (1,0) disagree at their matching
corner boundary vertex (row `lz = 8` of the shared edge): the `+Z` stitch of
chunk (0,0) re-averages its corner copy after the `+X` stitch equalised the
pair, leaving 5 vs 2 in the first normal component. -/
theorem smooth_borders_corner_mismatch :
    (storeGet cexStore (0, 0)).isSome = true ∧
      (storeGet cexStore (1, 0)).isSome = true ∧
      normAt (smoothChunkBorders cexStore) (0, 0) (iaX 8) ≠
        normAt (smoothChunkBorders cexStore) (1, 0) (ibX 8) := by
  have hA : storeGet cexStore (0, 0) = some cexA := rfl
  have hB : storeGet cexStore (1, 0) = some cexB := rfl
  have hC : storeGet cexStore (0, 1) = some cexC := rfl
  refine ⟨rfl, rfl, ?_⟩
  -- the pass is three processKey steps, in insertion order
  have hsmooth : smoothChunkBorders cexStore =
      processKey (processKey (processKey cexStore (0, 0)) (1, 0)) (0, 1) := rfl
  set σ1 := stitchZ (stitchX cexStore (0, 0)) (0, 0) with hσ1
  -- step 1: processing (0,0) runs both stitches
  have hstep1 : processKey cexStore (0, 0) = σ1 := by
    unfold processKey
    rw [hA]
  have hkX : storeKeys (stitchX cexStore (0, 0)) = storeKeys cexStore :=
    storeKeys_stitchX cexStore (0, 0)
  have hkZ : storeKeys σ1 = storeKeys cexStore := by
    rw [hσ1, storeKeys_stitchZ, hkX]
  obtain ⟨A₁, hA₁⟩ := storeGet_isSome_of_keys_eq hkX hA
  obtain ⟨B₁, hB₁⟩ := storeGet_isSome_of_keys_eq hkX hB
  obtain ⟨C₁, hC₁⟩ := storeGet_isSome_of_keys_eq hkX hC
  have hedgeX := stitchX_normAt_edge hA hB 8 (by norm_num [cd, chunkSize])
  have hvA : cexA.normals (iaX 8) = ⟨4, 0, 0⟩ := rfl
  have hvB : cexB.normals (ibX 8) = ⟨0, 0, 0⟩ := rfl
  -- after the +X stitch the two corner copies hold the midpoint ⟨2,0,0⟩
  have hA₁80 : A₁.normals (iaX 8) = ⟨2, 0, 0⟩ := by
    have h1 := hedgeX.1
    unfold normAt at h1
    rw [hA₁, Option.map_some', hvA, hvB] at h1
    simp only [Option.some.injEq] at h1
    rw [h1]
    simp only [midV]
    norm_num
  have hB₁72 : B₁.normals (ibX 8) = ⟨2, 0, 0⟩ := by
    have h1 : normAt (stitchX cexStore (0, 0)) (1, 0) (ibX 8) =
        some (midV (cexA.normals (iaX 8)) (cexB.normals (ibX 8))) := hedgeX.2
    unfold normAt at h1
    rw [hB₁, Option.map_some', hvA, hvB] at h1
    simp only [Option.some.injEq] at h1
    rw [h1]
    simp only [midV]
    norm_num
  -- the +X stitch does not touch chunk (0,1)
  have hC₁8 : C₁.normals (ibZ 8) = ⟨8, 0, 0⟩ := by
    have h1 := stitchX_normAt_untouched cexStore (0, 0) (0, 1) (ibZ 8)
      (fun h => absurd h (by decide))
      (fun h => absurd h (by decide))
    unfold normAt at h1
    rw [hC₁, hC, Option.map_some', Option.map_some'] at h1
    simp only [Option.some.injEq] at h1
    rw [h1]
    rfl
  -- after the +Z stitch of (0,0) its corner copy becomes ⟨5,0,0⟩
  have hedgeZ := stitchZ_normAt_edge hA₁ hC₁ 8 (by norm_num [cw, chunkSize])
  have hidx : iaZ 8 = iaX 8 := rfl
  have hval00 : normAt σ1 (0, 0) (iaX 8) = some ⟨5, 0, 0⟩ := by
    have h1 := hedgeZ.1
    rw [hidx] at h1
    rw [hσ1, h1, hA₁80, hC₁8]
    simp only [midV, Option.some.injEq, V3.mk.injEq]
    norm_num
  -- while the corner copy of (1,0) keeps the +X midpoint ⟨2,0,0⟩
  have hval10 : normAt σ1 (1, 0) (ibX 8) = some ⟨2, 0, 0⟩ := by
    have h1 := stitchZ_normAt_untouched (stitchX cexStore (0, 0)) (0, 0) (1, 0) (ibX 8)
      (fun h => absurd h (by decide))
      (fun h => absurd h (by decide))
    rw [hσ1, h1]
    unfold normAt
    rw [hB₁, Option.map_some', hB₁72]
  -- steps 2 and 3 find no +X / +Z neighbors and change nothing
  obtain ⟨B₂, hB₂⟩ := storeGet_isSome_of_keys_eq hkZ hB
  obtain ⟨C₂, hC₂⟩ := storeGet_isSome_of_keys_eq hkZ hC
  have hn20 : storeGet σ1 (2, 0) = none := storeGet_none_of_keys_eq hkZ rfl
  have hn11 : storeGet σ1 (1, 1) = none := storeGet_none_of_keys_eq hkZ rfl
  have hn02 : storeGet σ1 (0, 2) = none := storeGet_none_of_keys_eq hkZ rfl
  have hstep2 : processKey σ1 (1, 0) = σ1 := by
    unfold processKey
    rw [hB₂, @stitchX_of_noneB σ1 (1, 0) hn20, @stitchZ_of_noneB σ1 (1, 0) hn11]
  have hstep3 : processKey σ1 (0, 1) = σ1 := by
    unfold processKey
    rw [hC₂, @stitchX_of_noneB σ1 (0, 1) hn11, @stitchZ_of_noneB σ1 (0, 1) hn02]
  rw [hsmooth, hstep1, hstep2, hstep3, hval00, hval10]
  simp only [ne_eq, Option.some.injEq, V3.mk.injEq]
  norm_num

end ThreeTest
